import Mathlib

/-!
# ansible-grulebook: alert webhook, fact model and rule dispatch

A shallow embedding of `main.go`.  Strings are sequences of Unicode code points and
regular-expression positions are code-point indices.  What `main.go` takes from the Go
standard library is either interpreted (regular expressions, the decoding of a JSON document
into the structs of `main.go`) or taken as a parameter (the gzip package, the JSON scanner,
the YAML decoder, the file system); the rule engine is a parameter as well.  A function with
effects returns how it ends (`Outcome`) and the calls it made that matter here (`Event`).
-/

namespace Grulebook

/-! ## Regular expressions (`regexp`), the fragment used by `regExpHostPort` -/

/-- Regular-expression syntax tree. `cls` is a bracket class given by its inclusive ranges,
`plus` is greedy `+`, `rep r min max` is greedy `r{min,max}`, `cap i r` is the i-th
parenthesised group, `bot` is `^` and `eot` is `$` (both without the multi-line flag). -/
inductive Regex where
  | cls (ranges : List (Char × Char))
  | lit (c : Char)
  | cat (r₁ r₂ : Regex)
  | plus (r : Regex)
  | rep (r : Regex) (min max : Nat)
  | cap (i : Nat) (r : Regex)
  | bot
  | eot

/-- Matcher state: number of code points consumed, remaining input, and the capture groups
closed so far (group, start, end), most recent first. -/
structure MState where
  pos : Nat
  rest : List Char
  caps : List (Nat × Nat × Nat)

/-- Membership of a code point in a bracket class. -/
def inClass (ranges : List (Char × Char)) (c : Char) : Bool :=
  ranges.any fun r => decide (r.1.toNat ≤ c.toNat) && decide (c.toNat ≤ r.2.toNat)

/-- Greedy unbounded iteration of `step`; an iteration must consume input to be repeated. -/
def loop (step : MState → (MState → Option MState) → Option MState) :
    Nat → MState → (MState → Option MState) → Option MState
  | 0, s, k => k s
  | fuel + 1, s, k =>
    match step s
        (fun s' => if s'.rest.length < s.rest.length then loop step fuel s' k else none) with
    | some r => some r
    | none => k s

/-- Greedy counted iteration `{min,max}` of `step`. -/
def count (step : MState → (MState → Option MState) → Option MState) :
    Nat → Nat → MState → (MState → Option MState) → Option MState
  | _, 0, s, k => k s
  | min, max + 1, s, k =>
    match step s (fun s' => count step (min - 1) max s' k) with
    | some r => some r
    | none => if min = 0 then k s else none

/-- Backtracking matcher in continuation-passing style: alternatives are tried in
preference order, so the first success is the leftmost-first match. -/
def Regex.run : Regex → MState → (MState → Option MState) → Option MState
  | .cls rs, s, k =>
    match s.rest with
    | c :: cs => if inClass rs c then k { s with pos := s.pos + 1, rest := cs } else none
    | [] => none
  | .lit a, s, k =>
    match s.rest with
    | c :: cs => if c = a then k { s with pos := s.pos + 1, rest := cs } else none
    | [] => none
  | .cat r₁ r₂, s, k => r₁.run s (fun s' => r₂.run s' k)
  | .plus r, s, k => r.run s (fun s' => loop (fun t j => r.run t j) s'.rest.length s' k)
  | .rep r min max, s, k => count (fun t j => r.run t j) min max s k
  | .cap i r, s, k => r.run s (fun s' => k { s' with caps := (i, s.pos, s'.pos) :: s'.caps })
  | .bot, s, k => if s.pos = 0 then k s else none
  | .eot, s, k => if s.rest.isEmpty then k s else none

/-- One match: start and end of the whole match and the capture groups. -/
structure Match where
  start : Nat
  stop : Nat
  caps : List (Nat × Nat × Nat)

/-- Attempt a match starting exactly at position `pos`, where `rest` is the input from there. -/
def matchAt (re : Regex) (pos : Nat) (rest : List Char) : Option Match :=
  match re.run { pos := pos, rest := rest, caps := [] } some with
  | some s => some { start := pos, stop := s.pos, caps := s.caps }
  | none => none

/-- Leftmost match at or after `pos` (`doExecute`): start positions are tried in order. -/
def search (re : Regex) (pos : Nat) : List Char → Option Match
  | [] => matchAt re pos []
  | c :: cs =>
    match matchAt re pos (c :: cs) with
    | some m => some m
    | none => search re (pos + 1) cs

/-- The method `Regexp.MatchString`: is there a match anywhere in `s`. -/
def MatchString (re : Regex) (s : String) : Bool :=
  (search re 0 s.data).isSome

/-- A replacement template after `$` expansion has been parsed: literal text and
group references. -/
inductive TemplateItem where
  | text (t : List Char)
  | group (n : Nat)

/-- Text of group `n` of a match (`0` is the whole match); empty when the group did not
participate. -/
def groupText (src : List Char) (m : Match) (n : Nat) : List Char :=
  if n = 0 then (src.drop m.start).take (m.stop - m.start)
  else
    match m.caps.lookup n with
    | some (b, e) => (src.drop b).take (e - b)
    | none => []

/-- The method `Regexp.expand` on a parsed template. -/
def expand (template : List TemplateItem) (src : List Char) (m : Match) : List Char :=
  template.foldl (fun dst item =>
    match item with
    | .text t => dst ++ t
    | .group n => dst ++ groupText src m n) []

/-- The method `Regexp.replaceAll`: the loop over successive non-overlapping matches. -/
def replaceAll (re : Regex) (src : List Char) (repl : Match → List Char) :
    Nat → Nat → Nat → List Char → List Char
  | 0, _, lastMatchEnd, buf => buf ++ src.drop lastMatchEnd
  | fuel + 1, searchPos, lastMatchEnd, buf =>
    if searchPos ≤ src.length then
      match search re searchPos (src.drop searchPos) with
      | none => buf ++ src.drop lastMatchEnd
      | some a =>
        let buf₁ := buf ++ (src.drop lastMatchEnd).take (a.start - lastMatchEnd)
        let buf₂ := if lastMatchEnd < a.stop ∨ a.start = 0 then buf₁ ++ repl a else buf₁
        let width := if searchPos < src.length then 1 else 0
        let searchPos' :=
          if a.stop < searchPos + width then searchPos + width
          else if a.stop < searchPos + 1 then searchPos + 1
          else a.stop
        replaceAll re src repl fuel searchPos' a.stop buf₂
    else buf ++ src.drop lastMatchEnd

/-- The method `Regexp.ReplaceAllString`; the search position strictly increases, so `length + 2`
rounds always reach the end of the loop. -/
def ReplaceAllString (re : Regex) (src : String) (template : List TemplateItem) : String :=
  ⟨replaceAll re src.data (expand template src.data) (src.data.length + 2) 0 0 []⟩

/-! ## Global variables and the fact model -/

/-- The bracket class `[a-zA-Z0-9./\-_]`. -/
def hostClass : List (Char × Char) :=
  [('a', 'z'), ('A', 'Z'), ('0', '9'), ('.', '.'), ('/', '/'), ('-', '-'), ('_', '_')]

/-- The pattern `(^[a-zA-Z0-9./\-_]+)\:([0-9]{2,5})$`. -/
def regExpHostPort : Regex :=
  .cat (.cap 1 (.cat .bot (.plus (.cls hostClass))))
    (.cat (.lit ':') (.cat (.cap 2 (.rep (.cls [('0', '9')]) 2 5)) .eot))

/-- The nested `annotations` struct of `Alert`. -/
structure Annotations where
  Description : String
  Summary : String
deriving DecidableEq

/-- A `time.Time` value, kept as the instant it denotes; `0` is the zero value. -/
abbrev Time := Int

/-- The `Alert` struct; `Labels` is the map as an association list (first entry wins). -/
structure Alert where
  Status : String
  Labels : List (String × String)
  Annotations : Annotations
  StartsAt : Time
  EndsAt : Time
  GeneratorURL : String
  Fingerprint : String
  Playbook : String
  InventoryFile : String
  LimitHost : String
deriving DecidableEq

/-- The method `Alert.GetLimitHost`; the replacement template is `"${1}"`. -/
def GetLimitHost (Fact : Alert) : String :=
  match Fact.Labels.lookup "instance" with
  | none => ""
  | some inst =>
    if MatchString regExpHostPort inst then
      ReplaceAllString regExpHostPort inst [.group 1]
    else
      ""

/-- The method `Alert.GetWhatToSay`. -/
def GetWhatToSay (_Fact : Alert) (sentence : String) : String :=
  "Let say \"" ++ sentence ++ "\""

/-- The zero value of `Alert`. -/
def Alert.zero : Alert :=
  { Status := "", Labels := [], Annotations := ⟨"", ""⟩, StartsAt := 0, EndsAt := 0,
    GeneratorURL := "", Fingerprint := "", Playbook := "", InventoryFile := "", LimitHost := "" }

/-- The `AlertManagerPost` struct; an element of `Alerts` is the anonymous struct that
embeds `Alert`, whose fields are all promoted, so it is kept as an `Alert`. -/
structure AlertManagerPost where
  Receiver : String
  Status : String
  Alerts : List Alert
  ExternalURL : String
  Version : String
  GroupKey : String
  TruncatedAlerts : Int
deriving DecidableEq

/-- The zero value of `AlertManagerPost`. -/
def AlertManagerPost.zero : AlertManagerPost :=
  { Receiver := "", Status := "", Alerts := [], ExternalURL := "", Version := "",
    GroupKey := "", TruncatedAlerts := 0 }

/-- The `Source` struct. -/
structure Source where
  Name : String
  «Type» : String
  Host : String
  Port : Int
deriving DecidableEq

/-- The `Config` struct. -/
structure Config where
  Sources : List Source
deriving DecidableEq

/-! ## Effects -/

/-- A byte slice. -/
abbrev Bytes := List UInt8

/-- A Go `error` value, kept as its message. -/
abbrev Error := String

/-- How a call ends: it returns, it panics, or it ends the process (`os.Exit(code)`, which
is how `log.Fatal` ends). -/
inductive Outcome (α : Type) where
  | returned (a : α)
  | panicked (err : Error)
  | exited (code : Nat)
deriving DecidableEq

/-- The calls that are recorded: `gzip.NewReader` on a compressed body and
`evaluateFactAgainstRules` on a fact (as it is when the call is made). -/
inductive Event where
  | gzipOpened (compressed : Bytes)
  | evaluated (fact : Alert)
deriving DecidableEq

/-! ## `encoding/json`: documents and decoding into the structs of `main.go` -/

/-- A JSON value as the scanner delivers it. A number keeps its literal text; a string
keeps its text after unquoting together with the instant that `time.Time.UnmarshalJSON`
reads from the literal, when it reads one. -/
inductive JSON where
  | null
  | bool (b : Bool)
  | num (lit : String)
  | str (s : String) (time : Option Time)
  | arr (items : List JSON)
  | obj (members : List (String × JSON))

/-- Value of a non-empty string of decimal digits. -/
def parseDigits (ds : List Char) : Option Nat :=
  if ds.isEmpty then none
  else ds.foldl (fun acc c => acc.bind fun n =>
    if inClass [('0', '9')] c then some (10 * n + (c.toNat - '0'.toNat)) else none) (some 0)

/-- The call `strconv.ParseInt(lit, 10, 64)`. -/
def ParseInt (lit : String) : Option Int :=
  let r : Option Int :=
    match lit.data with
    | '-' :: ds => (parseDigits ds).map fun n => -(n : Int)
    | '+' :: ds => (parseDigits ds).map fun n => (n : Int)
    | ds => (parseDigits ds).map fun n => (n : Int)
  r.bind fun n => if -(2 ^ 63 : Int) ≤ n ∧ n < (2 ^ 63 : Int) then some n else none

/-- Case folding of a key character as far as it can meet an ASCII letter: lower-case ASCII
goes to upper case, and U+017F and U+212A go to `S` and `K`. -/
def foldChar (c : Char) : Char :=
  if 'a'.toNat ≤ c.toNat ∧ c.toNat ≤ 'z'.toNat then Char.ofNat (c.toNat - 32)
  else if c.toNat = 0x17F then 'S'
  else if c.toNat = 0x212A then 'K'
  else c

/-- The folded form of an object key or field name (`foldName`). -/
def foldName (s : String) : List Char :=
  s.data.map foldChar

/-- The struct field that an object key selects: an exact match of the JSON name first,
then the first field whose name matches under case folding. -/
def findField {F : Type} (fields : List (String × F)) (key : String) : Option F :=
  match fields.lookup key with
  | some f => some f
  | none => (fields.find? fun e => foldName e.1 == foldName key).map fun e => e.2

/-- Decode into a `string`: a string is stored, `null` leaves the value, anything else is
an `UnmarshalTypeError`. The error texts of the decoder are kept short: they do not name the
JSON kind or the struct field. -/
def decodeString (cur : String) : JSON → Except Error String
  | .str s _ => .ok s
  | .null => .ok cur
  | _ => .error "json: cannot unmarshal into Go value of type string"

/-- Decode into an `int`. -/
def decodeInt (cur : Int) : JSON → Except Error Int
  | .num lit =>
    match ParseInt lit with
    | some n => .ok n
    | none => .error "json: cannot unmarshal number into Go value of type int"
  | .null => .ok cur
  | _ => .error "json: cannot unmarshal into Go value of type int"

/-- Decode into a `time.Time` (through `UnmarshalJSON`). -/
def decodeTime (cur : Time) : JSON → Except Error Time
  | .str _ (some t) => .ok t
  | .null => .ok cur
  | _ => .error "Time.UnmarshalJSON: input is not a JSON string in RFC 3339 format"

/-- Map assignment `m[k] = v`: the entry of `k` is replaced, or a new one is added. -/
def mapSet (m : List (String × String)) (k v : String) : List (String × String) :=
  if m.any (fun e => e.1 == k) then m.map (fun e => if e.1 == k then (k, v) else e)
  else m ++ [(k, v)]

/-- Decode into a `map[string]string`: an object is merged into the existing map, each
value decoded into a fresh string. -/
def decodeLabels (cur : List (String × String)) : JSON → Except Error (List (String × String))
  | .obj members =>
    members.foldlM (fun m kv => do
      let v ← decodeString "" kv.2
      pure (mapSet m kv.1 v)) cur
  | .null => .ok []
  | _ => .error "json: cannot unmarshal into Go value of type map[string]string"

/-- Fields of the `annotations` struct. -/
inductive AnnotationsField where
  | Description
  | Summary

/-- JSON names of the fields of the `annotations` struct. -/
def annotationsFields : List (String × AnnotationsField) :=
  [("description", .Description), ("summary", .Summary)]

/-- Decode into the `annotations` struct. -/
def decodeAnnotations (cur : Annotations) : JSON → Except Error Annotations
  | .obj members =>
    members.foldlM (fun a kv =>
      match findField annotationsFields kv.1 with
      | some .Description => do
        let s ← decodeString a.Description kv.2
        pure { a with Description := s }
      | some .Summary => do
        let s ← decodeString a.Summary kv.2
        pure { a with Summary := s }
      | none => pure a) cur
  | .null => .ok cur
  | _ => .error "json: cannot unmarshal into Go value of type struct"

/-- Fields of `Alert`. -/
inductive AlertField where
  | Status
  | Labels
  | Annotations
  | StartsAt
  | EndsAt
  | GeneratorURL
  | Fingerprint
  | Playbook
  | InventoryFile
  | LimitHost

/-- JSON names of the fields of `Alert`: the `json` tag where there is one, the Go field name
for the three fields declared without a tag. -/
def alertFields : List (String × AlertField) :=
  [("status", .Status), ("labels", .Labels), ("annotations", .Annotations),
   ("startsAt", .StartsAt), ("endsAt", .EndsAt), ("generatorURL", .GeneratorURL),
   ("fingerprint", .Fingerprint), ("Playbook", .Playbook),
   ("InventoryFile", .InventoryFile), ("LimitHost", .LimitHost)]

/-- Decode one object member into the selected field of an `Alert`. -/
def setAlertField (a : Alert) (f : AlertField) (v : JSON) : Except Error Alert :=
  match f with
  | .Status => do let s ← decodeString a.Status v; pure { a with Status := s }
  | .Labels => do let m ← decodeLabels a.Labels v; pure { a with Labels := m }
  | .Annotations => do let n ← decodeAnnotations a.Annotations v; pure { a with Annotations := n }
  | .StartsAt => do let t ← decodeTime a.StartsAt v; pure { a with StartsAt := t }
  | .EndsAt => do let t ← decodeTime a.EndsAt v; pure { a with EndsAt := t }
  | .GeneratorURL => do let s ← decodeString a.GeneratorURL v; pure { a with GeneratorURL := s }
  | .Fingerprint => do let s ← decodeString a.Fingerprint v; pure { a with Fingerprint := s }
  | .Playbook => do let s ← decodeString a.Playbook v; pure { a with Playbook := s }
  | .InventoryFile => do
    let s ← decodeString a.InventoryFile v
    pure { a with InventoryFile := s }
  | .LimitHost => do let s ← decodeString a.LimitHost v; pure { a with LimitHost := s }

/-- Decode into an element of `Alerts`: members are taken in order, unknown keys skipped. -/
def decodeAlert (cur : Alert) : JSON → Except Error Alert
  | .obj members =>
    members.foldlM (fun a kv =>
      match findField alertFields kv.1 with
      | some f => setAlertField a f kv.2
      | none => pure a) cur
  | .null => .ok cur
  | _ => .error "json: cannot unmarshal into Go value of type struct"

/-- Decode the items of an array into slice elements: item `i` is decoded into what the
backing array holds at `i` (the zero value beyond it). -/
def decodeElems : List JSON → List Alert → Except Error (List Alert)
  | [], _ => .ok []
  | j :: js, backing => do
    let a ← decodeAlert (backing.headD Alert.zero) j
    let rest ← decodeElems js backing.tail
    pure (a :: rest)

/-- Decode into the `Alerts` slice. The state is the slice and the elements of its backing
array behind its length; an empty array or `null` gives a slice with no backing array. -/
def decodeAlerts (cur stale : List Alert) : JSON → Except Error (List Alert × List Alert)
  | .arr [] => .ok ([], [])
  | .arr items => do
    let elems ← decodeElems items (cur ++ stale)
    pure (elems, (cur ++ stale).drop items.length)
  | .null => .ok ([], [])
  | _ => .error "json: cannot unmarshal into Go value of type []struct"

/-- Fields of `AlertManagerPost`. -/
inductive PostField where
  | Receiver
  | Status
  | Alerts
  | ExternalURL
  | Version
  | GroupKey
  | TruncatedAlerts

/-- JSON names of the fields of `AlertManagerPost`. -/
def postFields : List (String × PostField) :=
  [("receiver", .Receiver), ("status", .Status), ("alerts", .Alerts),
   ("externalURL", .ExternalURL), ("version", .Version), ("groupKey", .GroupKey),
   ("truncatedAlerts", .TruncatedAlerts)]

/-- Decode one object member into the selected field of an `AlertManagerPost`. -/
def setPostField (st : AlertManagerPost × List Alert) (f : PostField) (v : JSON) :
    Except Error (AlertManagerPost × List Alert) :=
  match f with
  | .Receiver => do let s ← decodeString st.1.Receiver v; pure ({ st.1 with Receiver := s }, st.2)
  | .Status => do let s ← decodeString st.1.Status v; pure ({ st.1 with Status := s }, st.2)
  | .Alerts => do
    let r ← decodeAlerts st.1.Alerts st.2 v
    pure ({ st.1 with Alerts := r.1 }, r.2)
  | .ExternalURL => do
    let s ← decodeString st.1.ExternalURL v
    pure ({ st.1 with ExternalURL := s }, st.2)
  | .Version => do let s ← decodeString st.1.Version v; pure ({ st.1 with Version := s }, st.2)
  | .GroupKey => do let s ← decodeString st.1.GroupKey v; pure ({ st.1 with GroupKey := s }, st.2)
  | .TruncatedAlerts => do
    let n ← decodeInt st.1.TruncatedAlerts v
    pure ({ st.1 with TruncatedAlerts := n }, st.2)

/-- Decode a document into `var amp AlertManagerPost`. -/
def decodePost : JSON → Except Error AlertManagerPost
  | .obj members => do
    let st ← members.foldlM (fun st kv =>
      match findField postFields kv.1 with
      | some f => setPostField st f kv.2
      | none => pure st) (AlertManagerPost.zero, [])
    pure st.1
  | .null => .ok AlertManagerPost.zero
  | _ => .error "json: cannot unmarshal into Go value of type main.AlertManagerPost"

/-- The call `json.Unmarshal(data, &amp)` for a fresh `amp`: scan the text, then decode. The
scanner (syntax check, unquoting, timestamp literals) is a parameter. -/
def Unmarshal (scan : Bytes → Except Error JSON) (data : Bytes) : Except Error AlertManagerPost :=
  match scan data with
  | .error err => .error err
  | .ok doc => decodePost doc

/-! ## Libraries taken as parameters -/

/-- The package `compress/gzip` as `readBodyBytes` uses it: `gzip.NewReader` and `io.ReadAll`
on the reader; `compress` is what a `gzip.Writer` produces (used by the tests). -/
structure GzipLib (R : Type) where
  NewReader : Bytes → Except Error R
  ReadAll : R → Except Error Bytes
  compress : Bytes → Bytes

/-- The rule engine as `main.go` uses it, with the knowledge library passed as a state;
`Execute` takes the `MaxCycle` of the engine value first. -/
structure RuleEngine (KL KB DC : Type) where
  NewKnowledgeLibrary : KL
  BuildRuleFromResource : KL → String → String → Bytes → Except Error KL
  NewKnowledgeBaseInstance : KL → String → String → Except Error KB
  Add : String → Alert → Except Error DC
  Execute : Nat → DC → KB → Except Error Alert

/-! ## Startup -/

/-- The function `getRules`. `readFile` is `os.ReadFile`, returning the data and the error as
in Go; on an error the function only logs and goes on with the data returned. -/
def getRules {KL KB DC : Type} (eng : RuleEngine KL KB DC)
    (readFile : String → Bytes × Option Error) : Outcome KB :=
  let knowledgeLibrary := eng.NewKnowledgeLibrary
  let filename := "rules.grl"
  let rulefileBytes := (readFile filename).1
  match eng.BuildRuleFromResource knowledgeLibrary "TutorialRules" "0.0.1" rulefileBytes with
  | .error err => .panicked err
  | .ok knowledgeLibrary₁ =>
    match eng.NewKnowledgeBaseInstance knowledgeLibrary₁ "TutorialRules" "0.0.1" with
    | .error err => .panicked err
    | .ok knowledgeBase => .returned knowledgeBase

/-- What `main` has set up when it starts the listener. -/
structure Listener (KB : Type) where
  httpAddr : String
  knowledgeBase : KB

/-- The address chosen by the loop over the configured sources. -/
def listenAddr (httpAddr : String) : List Source → String
  | [] => httpAddr
  | source_obj :: rest => listenAddr (":" ++ toString source_obj.Port) rest

/-- The function `readConf`; `yamlUnmarshal` is `yaml.Unmarshal` into a `Config`. The file
name is put between plain quotes in the error text, which is what the verb `%q` gives for a
name without characters to escape, such as `config.yml`. -/
def readConf (readFile : String → Bytes × Option Error)
    (yamlUnmarshal : Bytes → Except Error Config) (filename : String) : Except Error Config :=
  match readFile filename with
  | (_, some err) => .error err
  | (buf, none) =>
    match yamlUnmarshal buf with
    | .error err => .error ("in file \"" ++ filename ++ "\": " ++ err)
    | .ok c => .ok c

/-- The function `main` up to `go startHttpListener(ctx)`: `returned l` means the listener is
started with `l`. -/
def main {KL KB DC : Type} (eng : RuleEngine KL KB DC)
    (yamlUnmarshal : Bytes → Except Error Config)
    (readFile : String → Bytes × Option Error) : Outcome (Listener KB) :=
  match readConf readFile yamlUnmarshal "config.yml" with
  | .error err => .panicked err
  | .ok config_obj =>
    let httpAddr := listenAddr ":5000" config_obj.Sources
    match getRules eng readFile with
    | .returned knowledgeBase => .returned { httpAddr := httpAddr, knowledgeBase := knowledgeBase }
    | .panicked err => .panicked err
    | .exited code => .exited code

/-! ## Request handling -/

/-- The method `Alert.evaluateFactAgainstRules`: the fact after the rules have run, or a panic. -/
def evaluateFactAgainstRules {KL KB DC : Type} (eng : RuleEngine KL KB DC) (knowledgeBase : KB)
    (a : Alert) : Outcome Alert :=
  match eng.Add "Fact" a with
  | .error err => .panicked err
  | .ok dataCtx =>
    match eng.Execute 100 dataCtx knowledgeBase with
    | .error err => .panicked err
    | .ok a₁ => .returned a₁

/-- The loop of `processAlerts` over `amp.Alerts`. -/
def processLoop {KL KB DC : Type} (eng : RuleEngine KL KB DC) (knowledgeBase : KB) :
    List Alert → List Event × Outcome Unit
  | [] => ([], .returned ())
  | AlertItem :: rest =>
    match AlertItem.Labels.lookup "alertname" with
    | none => ([], .exited 1)
    | some _ =>
      match evaluateFactAgainstRules eng knowledgeBase AlertItem with
      | .returned _ =>
        ((Event.evaluated AlertItem) :: (processLoop eng knowledgeBase rest).1,
          (processLoop eng knowledgeBase rest).2)
      | .panicked err => ([Event.evaluated AlertItem], .panicked err)
      | .exited code => ([Event.evaluated AlertItem], .exited code)

/-- The function `processAlerts`: decode the batch, then loop over its alerts. -/
def processAlerts {KL KB DC : Type} (scan : Bytes → Except Error JSON)
    (eng : RuleEngine KL KB DC) (knowledgeBase : KB) (bodyBytes : Bytes) :
    List Event × Outcome Unit :=
  match Unmarshal scan bodyBytes with
  | .error _ => ([], .exited 1)
  | .ok amp => processLoop eng knowledgeBase amp.Alerts

/-- An `http.Request` as far as the handler reads it: the header map and the outcome of
`io.ReadAll(r.Body)`. -/
structure Request where
  Header : List (String × List String)
  Body : Except Error Bytes

/-- The function `readBodyBytes`. -/
def readBodyBytes {R : Type} (gz : GzipLib R) (r : Request) : List Event × Except Error Bytes :=
  match r.Body with
  | .error readErr => ([], .error readErr)
  | .ok bodyBytes =>
    let enc := (r.Header.lookup "Content-Encoding").getD []
    if 0 < enc.length ∧ enc.head? = some "gzip" then
      match gz.NewReader bodyBytes with
      | .error gzErr => ([Event.gzipOpened bodyBytes], .error gzErr)
      | .ok contents =>
        match gz.ReadAll contents with
        | .error err2 => ([Event.gzipOpened bodyBytes], .error err2)
        | .ok bb => ([Event.gzipOpened bodyBytes], .ok bb)
    else
      ([], .ok bodyBytes)

/-- What a handler has done with its `http.ResponseWriter`: the status passed to
`WriteHeader`, if it was called, and the bytes passed to `Write`. -/
structure Written where
  status : Option Nat
  body : Bytes
deriving DecidableEq

/-- The function `handleWebhook`: the recorded calls, how the handler ends, and what it wrote to `w`
(it never writes). -/
def handleWebhook {R KL KB DC : Type} (gz : GzipLib R) (scan : Bytes → Except Error JSON)
    (eng : RuleEngine KL KB DC) (knowledgeBase : KB) (r : Request) :
    List Event × Outcome Unit × Written :=
  match readBodyBytes gz r with
  | (ev, .error _) => (ev, .returned (), ⟨none, []⟩)
  | (ev, .ok bodyBytes) =>
    (ev ++ (processAlerts scan eng knowledgeBase bodyBytes).1,
      (processAlerts scan eng knowledgeBase bodyBytes).2, ⟨none, []⟩)

/-- What the client of one request gets: a response with a status, or the connection
closed without a response. -/
inductive Reply where
  | status (code : Nat)
  | aborted
deriving DecidableEq

/-- The server process after a request. -/
inductive Process where
  | serving
  | terminated (code : Nat)
deriving DecidableEq

/-- One request that the `net/http` server set up by `startHttpListener` routes to
`handleWebhook` (path `/alerts`): a handler that returns without `WriteHeader` gets status
200, a panic in the handler is recovered by the server, which drops the connection and keeps
serving, and `os.Exit` ends the process. -/
def serveRequest {R KL KB DC : Type} (gz : GzipLib R) (scan : Bytes → Except Error JSON)
    (eng : RuleEngine KL KB DC) (knowledgeBase : KB) (r : Request) :
    List Event × Reply × Process :=
  match handleWebhook gz scan eng knowledgeBase r with
  | (ev, .returned _, w) => (ev, .status (w.status.getD 200), .serving)
  | (ev, .panicked _, _) => (ev, .aborted, .serving)
  | (ev, .exited code, _) => (ev, .aborted, .terminated code)

/-! ## The shape `host:port` in the words of the specification -/

/-- A character of the set `[A-Za-z0-9./_-]`. -/
def isHostChar (c : Char) : Prop :=
  ('A'.toNat ≤ c.toNat ∧ c.toNat ≤ 'Z'.toNat) ∨ ('a'.toNat ≤ c.toNat ∧ c.toNat ≤ 'z'.toNat) ∨
  ('0'.toNat ≤ c.toNat ∧ c.toNat ≤ '9'.toNat) ∨ c = '.' ∨ c = '/' ∨ c = '_' ∨ c = '-'

/-- A decimal digit. -/
def isPortDigit (c : Char) : Prop :=
  '0'.toNat ≤ c.toNat ∧ c.toNat ≤ '9'.toNat

/-- The shape `host:port`: a non-empty host over `[A-Za-z0-9./_-]` and a port of 2 to 5
decimal digits. -/
def HostPortShape (h p : String) : Prop :=
  h.data ≠ [] ∧ (∀ c ∈ h.data, isHostChar c) ∧
  2 ≤ p.data.length ∧ p.data.length ≤ 5 ∧ (∀ c ∈ p.data, isPortDigit c)

/-- The step function of a one-character class, as it is passed to `loop` and `count`. -/
abbrev clsStep (rs : List (Char × Char)) : MState → (MState → Option MState) → Option MState :=
  fun t j => (Regex.cls rs).run t j

/-- A rest of input on which the class cannot continue. -/
def Stops (rs : List (Char × Char)) (rest : List Char) : Prop :=
  ∀ c cs, rest = c :: cs → inClass rs c = false

/-- The bracket class `[0-9]`. -/
abbrev digitClass : List (Char × Char) := [('0', '9')]

/-- Continuation of `regExpHostPort` after the port digits: close group 2, then `$`. -/
def kEnd (k : MState → Option MState) (u : MState) : MState → Option MState :=
  fun v => Regex.eot.run { v with caps := (2, u.pos, v.pos) :: v.caps } k

/-- Continuation of `regExpHostPort` after the colon: `[0-9]{2,5}` inside group 2. -/
def kPort (k : MState → Option MState) : MState → Option MState :=
  fun u => count (clsStep digitClass) 2 5 u (kEnd k u)

/-- Continuation of `regExpHostPort` after the host: close group 1, then the colon. -/
def kHost (s : MState) (k : MState → Option MState) : MState → Option MState :=
  fun s' => (Regex.lit ':').run { s' with caps := (1, s.pos, s'.pos) :: s'.caps } (kPort k)

instance : DecidablePred isHostChar := fun c => by
  unfold isHostChar
  exact inferInstance

instance : DecidablePred isPortDigit := fun c => by
  unfold isPortDigit
  exact inferInstance

instance (h p : String) : Decidable (HostPortShape h p) := by
  unfold HostPortShape
  exact inferInstance

/-- An alert that carries the label `alertname`. -/
def Named (a : Alert) : Prop :=
  (a.Labels.lookup "alertname").isSome = true

instance : DecidablePred Named := fun a => by
  unfold Named
  exact inferInstance

/-! ## Concrete libraries for examples -/

/-- The bytes of an ASCII text. -/
def ascii (s : String) : Bytes :=
  s.data.map fun c => UInt8.ofNat c.toNat

/-- A scanner that knows the listed texts and reports a syntax error on any other input. -/
def scanTable (docs : List (Bytes × JSON)) : Bytes → Except Error JSON :=
  fun data =>
    match docs.lookup data with
    | some doc => .ok doc
    | none => .error "invalid character looking for beginning of value"

/-- A rule engine given by the sources it compiles and by what its rules do to a fact. -/
def simpleEngine (accepts : Bytes → Bool) (exec : Alert → Except Error Alert) :
    RuleEngine (List (String × String)) Unit Alert where
  NewKnowledgeLibrary := []
  BuildRuleFromResource := fun kl name version src =>
    if accepts src then .ok ((name, version) :: kl) else .error "error while parsing rule"
  NewKnowledgeBaseInstance := fun kl name version =>
    if kl.contains (name, version) then .ok () else .error "knowledge base not found"
  Add := fun _ a => .ok a
  Execute := fun _ dataCtx _ => exec dataCtx

/-- A framing codec with the interface of the package: two magic bytes, the payload stored
as it is, and a trailer byte holding the payload length modulo 256. -/
def framedGzip : GzipLib Bytes where
  NewReader := fun data =>
    match data with
    | 0x1f :: 0x8b :: rest => .ok rest
    | _ => .error "gzip: invalid header"
  ReadAll := fun contents =>
    match contents.getLast? with
    | some n =>
      if n = UInt8.ofNat (contents.dropLast.length % 256) then .ok contents.dropLast
      else .error "gzip: invalid checksum"
    | none => .error "unexpected EOF"
  compress := fun b => 0x1f :: 0x8b :: (b ++ [UInt8.ofNat (b.length % 256)])

/-- A fact with the given labels and zero values elsewhere. -/
def factWith (labels : List (String × String)) : Alert :=
  { Alert.zero with Labels := labels }

/-- An engine that compiles every source and whose rules leave the fact as it is. -/
def idleEngine : RuleEngine (List (String × String)) Unit Alert :=
  simpleEngine (fun _ => true) (fun a => .ok a)

/-- An engine that compiles every source and fails on the facts with fingerprint `bad`. -/
def failingEngine : RuleEngine (List (String × String)) Unit Alert :=
  simpleEngine (fun _ => true)
    (fun a => if a.Fingerprint = "bad" then .error "rule execution failed" else .ok a)

/-- An alert with `alertname` and `instance`. -/
def alertHighCPU : Alert :=
  factWith [("alertname", "HighCPU"), ("instance", "db01:9100")]

/-- An alert without `alertname`. -/
def alertUnnamed : Alert :=
  factWith [("instance", "db02:9100")]

/-- A JSON string that is not a timestamp. -/
def jstr (s : String) : JSON :=
  .str s none

/-- The document of `alertHighCPU`. -/
def docHighCPU : JSON :=
  .obj [("labels", .obj [("alertname", jstr "HighCPU"), ("instance", jstr "db01:9100")])]

/-- The document of `alertUnnamed`. -/
def docUnnamed : JSON :=
  .obj [("labels", .obj [("instance", jstr "db02:9100")])]

/-- Request body: a batch of `alertHighCPU` followed by `alertUnnamed`. -/
def bodyMixed : Bytes :=
  ascii ("\x7b\"alerts\":[\x7b\"labels\":\x7b\"alertname\":\"HighCPU\"," ++
    "\"instance\":\"db01:9100\"\x7d\x7d,\x7b\"labels\":\x7b\"instance\":\"db02:9100\"\x7d\x7d]\x7d")

/-- The document that `bodyMixed` denotes. -/
def docMixed : JSON :=
  .obj [("alerts", .arr [docHighCPU, docUnnamed])]

/-- Request body that is not JSON. -/
def bodyGarbage : Bytes :=
  ascii "<html>this is not json</html>"

/-- Request body: one alert whose object also carries the keys `playbook`, `InventoryFile`
and `LIMITHOST`. -/
def bodyPreset : Bytes :=
  ascii ("\x7b\"alerts\":[\x7b\"labels\":\x7b\"alertname\":\"HighCPU\"\x7d," ++
    "\"playbook\":\"evil.yml\",\"InventoryFile\":\"hosts.ini\",\"LIMITHOST\":\"all\"\x7d]\x7d")

/-- The document that `bodyPreset` denotes. -/
def docPreset : JSON :=
  .obj [("alerts", .arr [.obj [("labels", .obj [("alertname", jstr "HighCPU")]),
    ("playbook", jstr "evil.yml"), ("InventoryFile", jstr "hosts.ini"),
    ("LIMITHOST", jstr "all")]])]

/-- The fact that `bodyPreset` decodes to. -/
def factPreset : Alert :=
  { factWith [("alertname", "HighCPU")] with
    Playbook := "evil.yml", InventoryFile := "hosts.ini", LimitHost := "all" }

/-- Two named alerts, the first with fingerprint `bad`. -/
def alertBad : Alert :=
  { factWith [("alertname", "DiskFull")] with Fingerprint := "bad" }

/-- Request body: a batch of `alertBad` followed by `alertHighCPU`. -/
def bodyBadFirst : Bytes :=
  ascii ("\x7b\"alerts\":[\x7b\"labels\":\x7b\"alertname\":\"DiskFull\"\x7d," ++
    "\"fingerprint\":\"bad\"\x7d,\x7b\"labels\":\x7b\"alertname\":\"HighCPU\"," ++
    "\"instance\":\"db01:9100\"\x7d\x7d]\x7d")

/-- The document that `bodyBadFirst` denotes. -/
def docBadFirst : JSON :=
  .obj [("alerts", .arr [.obj [("labels", .obj [("alertname", jstr "DiskFull")]),
    ("fingerprint", jstr "bad")], docHighCPU])]

/-- Request body: a batch of `alertBad` followed by `alertUnnamed`. -/
def bodyBadUnnamed : Bytes :=
  ascii ("\x7b\"alerts\":[\x7b\"labels\":\x7b\"alertname\":\"DiskFull\"\x7d," ++
    "\"fingerprint\":\"bad\"\x7d,\x7b\"labels\":\x7b\"instance\":\"db02:9100\"\x7d\x7d]\x7d")

/-- The document that `bodyBadUnnamed` denotes. -/
def docBadUnnamed : JSON :=
  .obj [("alerts", .arr [.obj [("labels", .obj [("alertname", jstr "DiskFull")]),
    ("fingerprint", jstr "bad")], docUnnamed])]

/-- A scanner for the bodies above. -/
def scanExamples : Bytes → Except Error JSON :=
  scanTable [(bodyMixed, docMixed), (bodyPreset, docPreset), (bodyBadFirst, docBadFirst),
    (bodyBadUnnamed, docBadUnnamed)]

/-- A request without `Content-Encoding` whose body reads as `body`. -/
def plainRequest (body : Bytes) : Request :=
  { Header := [("Content-Type", ["application/json"])], Body := .ok body }

/-- A request with `Content-Encoding: gzip` whose body reads as `body`. -/
def gzipRequest (body : Bytes) : Request :=
  { Header := [("Content-Type", ["application/json"]), ("Content-Encoding", ["gzip"])],
    Body := .ok body }

/-- The engine runs to the end on a fact: `evaluateFactAgainstRules` returns. -/
def Evaluates {KL KB DC : Type} (eng : RuleEngine KL KB DC) (knowledgeBase : KB) (a : Alert) :
    Prop :=
  ∃ a₁, evaluateFactAgainstRules eng knowledgeBase a = .returned a₁

/-- The engine returns an error on a fact: `dataCtx.Add` returns it, or `dataCtx.Add` succeeds
and `engine.Execute` returns it. -/
def EngineFails {KL KB DC : Type} (eng : RuleEngine KL KB DC) (knowledgeBase : KB) (a : Alert)
    (err : Error) : Prop :=
  eng.Add "Fact" a = .error err ∨
    ∃ dataCtx, eng.Add "Fact" a = .ok dataCtx ∧ eng.Execute 100 dataCtx knowledgeBase = .error err

/-- The engine returns no error on a fact: `dataCtx.Add` and `engine.Execute` both succeed. -/
def EngineSucceeds {KL KB DC : Type} (eng : RuleEngine KL KB DC) (knowledgeBase : KB)
    (a : Alert) : Prop :=
  ∃ dataCtx a₁, eng.Add "Fact" a = .ok dataCtx ∧ eng.Execute 100 dataCtx knowledgeBase = .ok a₁

/-- The alerts of a batch that precede the first alert without `alertname`. -/
def namedRun (alerts : List Alert) : List Alert :=
  alerts.takeWhile fun a => decide (Named a)

/-- The bytes are not a gzip stream that can be read to its end: opening the reader or
reading from it fails. -/
def GzipFails {R : Type} (gz : GzipLib R) (data : Bytes) (err : Error) : Prop :=
  gz.NewReader data = .error err ∨ ∃ contents, gz.NewReader data = .ok contents ∧
    gz.ReadAll contents = .error err

/-- The header `Content-Encoding` is present and its first value is `gzip`. -/
def DeclaresGzip (r : Request) : Prop :=
  ∃ more, r.Header.lookup "Content-Encoding" = some ("gzip" :: more)

/-- A configuration with one source. -/
def configExample : Config :=
  { Sources := [{ Name := "alertmanager", «Type» := "webhook", Host := "0.0.0.0", Port := 5000 }] }

/-- The text of a `config.yml` for `configExample`. -/
def configText : Bytes :=
  ascii "sources:\n  - name: alertmanager\n    type: webhook\n    host: 0.0.0.0\n    port: 5000\n"

/-- A YAML decoder that knows the listed texts and reports an error on any other input. -/
def yamlTable (docs : List (Bytes × Config)) : Bytes → Except Error Config :=
  fun data =>
    match docs.lookup data with
    | some c => .ok c
    | none => .error "yaml: unmarshal errors"

/-- An `os.ReadFile` for a directory that holds `config.yml` and nothing else. -/
def onlyConfig : String → Bytes × Option Error :=
  fun name =>
    if name = "config.yml" then (configText, none)
    else ([], some ("open " ++ name ++ ": no such file or directory"))

/-- The state `t` is reached from `s` by consuming input. -/
def Advances (s t : MState) : Prop :=
  s.pos ≤ t.pos ∧ t.pos + t.rest.length = s.pos + s.rest.length

/-- Every success of `step` goes through its continuation, at a state further on. -/
def Forward (step : MState → (MState → Option MState) → Option MState) : Prop :=
  ∀ s k r, step s k = some r → ∃ t, Advances s t ∧ k t = some r

/-! ## Lemmas on the matcher -/

theorem char_eq_of_toNat_eq {c d : Char} (h : c.toNat = d.toNat) : c = d := by
  apply Char.ext
  apply UInt32.ext
  exact h

theorem inClass_hostClass (c : Char) : inClass hostClass c = true ↔ isHostChar c := by
  unfold inClass hostClass isHostChar
  simp only [List.any_cons, List.any_nil, Bool.or_false, Bool.or_eq_true, Bool.and_eq_true,
    decide_eq_true_eq]
  constructor
  · rintro (h | h | h | h | h | h | h)
    · exact Or.inr (Or.inl h)
    · exact Or.inl h
    · exact Or.inr (Or.inr (Or.inl h))
    · exact Or.inr (Or.inr (Or.inr (Or.inl (char_eq_of_toNat_eq (Nat.le_antisymm h.2 h.1)))))
    · exact Or.inr (Or.inr (Or.inr (Or.inr (Or.inl (char_eq_of_toNat_eq (Nat.le_antisymm h.2 h.1))))))
    · exact Or.inr (Or.inr (Or.inr (Or.inr (Or.inr (Or.inr
        (char_eq_of_toNat_eq (Nat.le_antisymm h.2 h.1)))))))
    · exact Or.inr (Or.inr (Or.inr (Or.inr (Or.inr (Or.inl
        (char_eq_of_toNat_eq (Nat.le_antisymm h.2 h.1)))))))
  · rintro (h | h | h | h | h | h | h)
    · exact Or.inr (Or.inl h)
    · exact Or.inl h
    · exact Or.inr (Or.inr (Or.inl h))
    · subst h; exact Or.inr (Or.inr (Or.inr (Or.inl ⟨Nat.le_refl _, Nat.le_refl _⟩)))
    · subst h; exact Or.inr (Or.inr (Or.inr (Or.inr (Or.inl ⟨Nat.le_refl _, Nat.le_refl _⟩))))
    · subst h
      exact Or.inr (Or.inr (Or.inr (Or.inr (Or.inr (Or.inr ⟨Nat.le_refl _, Nat.le_refl _⟩)))))
    · subst h
      exact Or.inr (Or.inr (Or.inr (Or.inr (Or.inr (Or.inl ⟨Nat.le_refl _, Nat.le_refl _⟩)))))

theorem inClass_digit (c : Char) : inClass [('0', '9')] c = true ↔ isPortDigit c := by
  unfold inClass isPortDigit
  simp only [List.any_cons, List.any_nil, Bool.or_false, Bool.and_eq_true, decide_eq_true_eq]

theorem colon_not_hostChar : inClass hostClass ':' = false := by decide

theorem clsStep_nil (rs : List (Char × Char)) (pos : Nat) (caps : List (Nat × Nat × Nat))
    (k : MState → Option MState) : clsStep rs ⟨pos, [], caps⟩ k = none := rfl

theorem clsStep_cons (rs : List (Char × Char)) (pos : Nat) (c : Char) (cs : List Char)
    (caps : List (Nat × Nat × Nat)) (k : MState → Option MState) :
    clsStep rs ⟨pos, c :: cs, caps⟩ k = if inClass rs c then k ⟨pos + 1, cs, caps⟩ else none := rfl

theorem clsStep_stops (rs : List (Char × Char)) (pos : Nat) (rest : List Char)
    (caps : List (Nat × Nat × Nat)) (k : MState → Option MState) (hs : Stops rs rest) :
    clsStep rs ⟨pos, rest, caps⟩ k = none := by
  cases rest with
  | nil => rfl
  | cons c cs => rw [clsStep_cons, hs c cs rfl]; rfl

theorem loop_cls_success (rs : List (Char × Char)) (k : MState → Option MState) (x : MState)
    (rest : List Char) (caps : List (Nat × Nat × Nat)) (hs : Stops rs rest) :
    ∀ (h : List Char) (fuel pos : Nat), h.length ≤ fuel → (∀ c ∈ h, inClass rs c = true) →
      k ⟨pos + h.length, rest, caps⟩ = some x →
      loop (clsStep rs) fuel ⟨pos, h ++ rest, caps⟩ k = some x := by
  intro h
  induction h with
  | nil =>
    intro fuel pos _ _ hk
    simp only [List.length_nil, Nat.add_zero] at hk
    cases fuel with
    | zero => simpa [loop] using hk
    | succ f =>
      simp only [loop, List.nil_append]
      rw [clsStep_stops rs pos rest caps _ hs]
      exact hk
  | cons c h ih =>
    intro fuel pos hf hall hk
    cases fuel with
    | zero => simp at hf
    | succ f =>
      have hc : inClass rs c = true := hall c (List.mem_cons_self _ _)
      have hrec := ih f (pos + 1) (by simpa using hf)
        (fun d hd => hall d (List.mem_cons_of_mem _ hd))
        (by simpa [Nat.add_assoc, Nat.add_comm 1] using hk)
      simp only [loop, List.cons_append]
      rw [clsStep_cons, hc]
      simp [hrec]

theorem loop_cls_sound (rs : List (Char × Char)) (k : MState → Option MState) (x : MState) :
    ∀ (fuel : Nat) (s : MState), loop (clsStep rs) fuel s k = some x →
      ∃ a b, s.rest = a ++ b ∧ (∀ c ∈ a, inClass rs c = true) ∧
        k ⟨s.pos + a.length, b, s.caps⟩ = some x := by
  intro fuel
  induction fuel with
  | zero =>
    intro s h
    exact ⟨[], s.rest, rfl, by simp, by simpa [loop] using h⟩
  | succ f ih =>
    intro s h
    obtain ⟨pos, rest, caps⟩ := s
    cases rest with
    | nil =>
      simp only [loop, clsStep_nil] at h
      exact ⟨[], [], rfl, by simp, by simpa using h⟩
    | cons c cs =>
      simp only [loop, clsStep_cons] at h
      by_cases hc : inClass rs c = true
      · simp only [hc, if_true, List.length_cons, Nat.lt_succ_self] at h
        cases hl : loop (clsStep rs) f ⟨pos + 1, cs, caps⟩ k with
        | some r =>
          rw [hl] at h
          have hx : r = x := by simpa using h
          subst hx
          obtain ⟨a, b, hab, ha, hk⟩ := ih _ hl
          refine ⟨c :: a, b, by simpa using hab, ?_, ?_⟩
          · intro d hd
            rcases List.mem_cons.mp hd with rfl | hd
            · exact hc
            · exact ha d hd
          · simpa [Nat.add_assoc, Nat.add_comm 1] using hk
        | none =>
          rw [hl] at h
          exact ⟨[], c :: cs, rfl, by simp, by simpa using h⟩
      · simp only [hc] at h
        exact ⟨[], c :: cs, rfl, by simp, by simpa using h⟩

theorem count_cls_success (rs : List (Char × Char)) (k : MState → Option MState) (x : MState)
    (rest : List Char) (caps : List (Nat × Nat × Nat)) (hs : Stops rs rest) :
    ∀ (p : List Char) (min max pos : Nat), min ≤ p.length → p.length ≤ max →
      (∀ c ∈ p, inClass rs c = true) →
      k ⟨pos + p.length, rest, caps⟩ = some x →
      count (clsStep rs) min max ⟨pos, p ++ rest, caps⟩ k = some x := by
  intro p
  induction p with
  | nil =>
    intro min max pos hmin _ _ hk
    have hm : min = 0 := by simpa using hmin
    subst hm
    simp only [List.length_nil, Nat.add_zero] at hk
    cases max with
    | zero => simpa [count] using hk
    | succ m =>
      simp only [count, List.nil_append]
      rw [clsStep_stops rs pos rest caps _ hs]
      simpa using hk
  | cons c p ih =>
    intro min max pos hmin hmax hall hk
    cases max with
    | zero => simp at hmax
    | succ m =>
      have hc : inClass rs c = true := hall c (List.mem_cons_self _ _)
      have hrec := ih (min - 1) m (pos + 1) (by simp at hmin; omega) (by simpa using hmax)
        (fun d hd => hall d (List.mem_cons_of_mem _ hd))
        (by simpa [Nat.add_assoc, Nat.add_comm 1] using hk)
      simp only [count, List.cons_append]
      rw [clsStep_cons, hc]
      simp [hrec]

theorem count_cls_sound (rs : List (Char × Char)) (k : MState → Option MState) (x : MState) :
    ∀ (max min : Nat) (s : MState), min ≤ max → count (clsStep rs) min max s k = some x →
      ∃ a b, s.rest = a ++ b ∧ (∀ c ∈ a, inClass rs c = true) ∧
        min ≤ a.length ∧ a.length ≤ max ∧ k ⟨s.pos + a.length, b, s.caps⟩ = some x := by
  intro max
  induction max with
  | zero =>
    intro min s hmm h
    have hm : min = 0 := by omega
    subst hm
    exact ⟨[], s.rest, rfl, by simp, by simp, by simp, by simpa [count] using h⟩
  | succ m ih =>
    intro min s hmm h
    obtain ⟨pos, rest, caps⟩ := s
    have stay : (if min = 0 then k ⟨pos, rest, caps⟩ else none) = some x →
        ∃ a b, rest = a ++ b ∧ (∀ c ∈ a, inClass rs c = true) ∧
          min ≤ a.length ∧ a.length ≤ m + 1 ∧ k ⟨pos + a.length, b, caps⟩ = some x := by
      intro h0
      by_cases hz : min = 0
      · subst hz
        exact ⟨[], rest, rfl, by simp, by simp, by simp, by simpa using h0⟩
      · simp [hz] at h0
    cases rest with
    | nil =>
      simp only [count, clsStep_nil] at h
      exact stay h
    | cons c cs =>
      simp only [count, clsStep_cons] at h
      by_cases hc : inClass rs c = true
      · simp only [hc, if_true] at h
        cases hl : count (clsStep rs) (min - 1) m ⟨pos + 1, cs, caps⟩ k with
        | some r =>
          rw [hl] at h
          have hx : r = x := by simpa using h
          subst hx
          obtain ⟨a, b, hab, ha, h1, h2, hk⟩ := ih (min - 1) _ (by omega) hl
          refine ⟨c :: a, b, by simpa using hab, ?_, by simp at h1 ⊢; omega, by simpa using h2, ?_⟩
          · intro d hd
            rcases List.mem_cons.mp hd with rfl | hd
            · exact hc
            · exact ha d hd
          · simpa [Nat.add_assoc, Nat.add_comm 1] using hk
        | none =>
          rw [hl] at h
          exact stay h
      · simp only [hc] at h
        exact stay h

theorem run_regExpHostPort (s : MState) (k : MState → Option MState) :
    regExpHostPort.run s k =
      if s.pos = 0 then
        clsStep hostClass s (fun s' => loop (clsStep hostClass) s'.rest.length s' (kHost s k))
      else none := rfl

theorem kHost_colon (s : MState) (k : MState → Option MState) (pos : Nat) (p : List Char)
    (caps : List (Nat × Nat × Nat)) :
    kHost s k ⟨pos, ':' :: p, caps⟩ = kPort k ⟨pos + 1, p, (1, s.pos, pos) :: caps⟩ := rfl

theorem kEnd_nil (k : MState → Option MState) (u : MState) (pos : Nat)
    (caps : List (Nat × Nat × Nat)) :
    kEnd k u ⟨pos, [], caps⟩ = k ⟨pos, [], (2, u.pos, pos) :: caps⟩ := rfl

theorem stops_colon (p : List Char) : Stops hostClass (':' :: p) := by
  intro c cs h
  cases h
  exact colon_not_hostChar

theorem stops_nil (rs : List (Char × Char)) : Stops rs [] := by
  intro c cs h
  cases h

/-- On `host:port` the pattern matches the whole input and group 1 is the host. -/
theorem matchAt_hostPort (h p : List Char) (hne : h ≠ [])
    (hh : ∀ c ∈ h, inClass hostClass c = true)
    (hp2 : 2 ≤ p.length) (hp5 : p.length ≤ 5) (hp : ∀ c ∈ p, inClass digitClass c = true) :
    matchAt regExpHostPort 0 (h ++ ':' :: p) =
      some ⟨0, h.length + 1 + p.length,
        [(2, h.length + 1, h.length + 1 + p.length), (1, 0, h.length)]⟩ := by
  cases h with
  | nil => exact absurd rfl hne
  | cons c h =>
    have hc : inClass hostClass c = true := hh c (List.mem_cons_self _ _)
    have hport : kPort some ⟨1 + h.length + 1, p, [(1, 0, 1 + h.length)]⟩ =
        some ⟨1 + h.length + 1 + p.length, [],
          [(2, 1 + h.length + 1, 1 + h.length + 1 + p.length), (1, 0, 1 + h.length)]⟩ := by
      have := count_cls_success digitClass
        (kEnd some ⟨1 + h.length + 1, p, [(1, 0, 1 + h.length)]⟩)
        ⟨1 + h.length + 1 + p.length, [],
          [(2, 1 + h.length + 1, 1 + h.length + 1 + p.length), (1, 0, 1 + h.length)]⟩
        [] [(1, 0, 1 + h.length)] (stops_nil _) p 2 5 (1 + h.length + 1) hp2 hp5 hp
        (by rw [kEnd_nil])
      simpa [kPort] using this
    have hloop := loop_cls_success hostClass (kHost ⟨0, c :: (h ++ ':' :: p), []⟩ some)
      ⟨1 + h.length + 1 + p.length, [],
        [(2, 1 + h.length + 1, 1 + h.length + 1 + p.length), (1, 0, 1 + h.length)]⟩
      (':' :: p) [] (stops_colon p) h (h ++ ':' :: p).length 1 (by simp)
      (fun d hd => hh d (List.mem_cons_of_mem _ hd))
      (by rw [kHost_colon]; exact hport)
    unfold matchAt
    rw [run_regExpHostPort]
    simp only [if_true, List.cons_append]
    rw [clsStep_cons, hc]
    simp only [if_true, Nat.zero_add]
    rw [hloop]
    simp [Nat.add_comm, Nat.add_left_comm]

/-- Whenever the pattern matches at position 0 the input has the shape `host:port`. -/
theorem matchAt_hostPort_shape (s : List Char) (m : Match)
    (hm : matchAt regExpHostPort 0 s = some m) :
    ∃ h p, s = h ++ ':' :: p ∧ h ≠ [] ∧ (∀ c ∈ h, inClass hostClass c = true) ∧
      2 ≤ p.length ∧ p.length ≤ 5 ∧ (∀ c ∈ p, inClass digitClass c = true) := by
  unfold matchAt at hm
  cases hr : regExpHostPort.run ⟨0, s, []⟩ some with
  | none => rw [hr] at hm; cases hm
  | some x =>
    rw [run_regExpHostPort] at hr
    simp only [if_true] at hr
    cases s with
    | nil => rw [clsStep_nil] at hr; cases hr
    | cons c cs =>
      rw [clsStep_cons] at hr
      by_cases hc : inClass hostClass c = true
      · simp only [hc, if_true] at hr
        obtain ⟨a, b, hab, ha, hk⟩ := loop_cls_sound hostClass _ x _ _ hr
        simp only at hab hk
        cases b with
        | nil => cases hk
        | cons d b =>
          by_cases hd : d = ':'
          · subst hd
            rw [kHost_colon] at hk
            obtain ⟨q, e, hqe, hq, h2, h5, hke⟩ := count_cls_sound digitClass _ x 5 2 _ (by decide) hk
            simp only at hqe hke
            cases e with
            | cons _ _ => cases hke
            | nil =>
              refine ⟨c :: a, q, ?_, by simp, ?_, h2, h5, hq⟩
              · simp [hab, hqe]
              · intro d hd
                rcases List.mem_cons.mp hd with rfl | hd
                · exact hc
                · exact ha d hd
          · simp [kHost, Regex.run, hd] at hk
      · simp [hc] at hr

/-- The pattern starts with `^`: no match starts after position 0. -/
theorem matchAt_pos (pos : Nat) (hpos : 0 < pos) (rest : List Char) :
    matchAt regExpHostPort pos rest = none := by
  unfold matchAt
  rw [run_regExpHostPort]
  have : pos ≠ 0 := Nat.pos_iff_ne_zero.mp hpos
  simp [this]

theorem search_pos (pos : Nat) (hpos : 0 < pos) (rest : List Char) :
    search regExpHostPort pos rest = none := by
  induction rest generalizing pos with
  | nil => simpa [search] using matchAt_pos pos hpos []
  | cons c cs ih =>
    simp only [search]
    rw [matchAt_pos pos hpos, ih (pos + 1) (Nat.succ_pos _)]

theorem search_zero (s : List Char) :
    search regExpHostPort 0 s = matchAt regExpHostPort 0 s := by
  cases s with
  | nil => rfl
  | cons c cs =>
    simp only [search]
    cases matchAt regExpHostPort 0 (c :: cs) with
    | some m => rfl
    | none => exact search_pos 1 (by decide) cs

/-! ## Positions of a match, and the fuel of `replaceAll` -/

theorem advances_refl (s : MState) : Advances s s := ⟨Nat.le_refl _, rfl⟩

theorem advances_trans {s t u : MState} (h1 : Advances s t) (h2 : Advances t u) :
    Advances s u := ⟨Nat.le_trans h1.1 h2.1, h2.2.trans h1.2⟩

theorem loop_forward (step : MState → (MState → Option MState) → Option MState)
    (hstep : Forward step) (k : MState → Option MState) (r : MState) :
    ∀ (fuel : Nat) (s : MState), loop step fuel s k = some r →
      ∃ t, Advances s t ∧ k t = some r := by
  intro fuel
  induction fuel with
  | zero => intro s h; exact ⟨s, advances_refl s, by simpa [loop] using h⟩
  | succ f ih =>
    intro s h
    simp only [loop] at h
    cases hs : step s (fun s' => if s'.rest.length < s.rest.length then loop step f s' k
        else none) with
    | none => rw [hs] at h; exact ⟨s, advances_refl s, h⟩
    | some x =>
      rw [hs] at h
      have hx : x = r := by simpa using h
      subst hx
      obtain ⟨t, ht, hk⟩ := hstep _ _ _ hs
      by_cases hlt : t.rest.length < s.rest.length
      · simp only [hlt, if_true] at hk
        obtain ⟨u, hu, hku⟩ := ih t hk
        exact ⟨u, advances_trans ht hu, hku⟩
      · simp [hlt] at hk

theorem count_forward (step : MState → (MState → Option MState) → Option MState)
    (hstep : Forward step) (k : MState → Option MState) (r : MState) :
    ∀ (max min : Nat) (s : MState), count step min max s k = some r →
      ∃ t, Advances s t ∧ k t = some r := by
  intro max
  induction max with
  | zero => intro min s h; exact ⟨s, advances_refl s, by simpa [count] using h⟩
  | succ m ih =>
    intro min s h
    simp only [count] at h
    cases hs : step s (fun s' => count step (min - 1) m s' k) with
    | none =>
      rw [hs] at h
      by_cases hz : min = 0
      · simp only [hz, if_true] at h
        exact ⟨s, advances_refl s, h⟩
      · simp [hz] at h
    | some x =>
      rw [hs] at h
      have hx : x = r := by simpa using h
      subst hx
      obtain ⟨t, ht, hk⟩ := hstep _ _ _ hs
      obtain ⟨u, hu, hku⟩ := ih _ t hk
      exact ⟨u, advances_trans ht hu, hku⟩

/-- A successful run passes through its continuation at a state further on in the input. -/
theorem run_forward (re : Regex) : Forward (fun s k => re.run s k) := by
  induction re with
  | cls rs =>
    intro s k r h
    obtain ⟨pos, rest, caps⟩ := s
    cases rest with
    | nil => simp [Regex.run] at h
    | cons c cs =>
      by_cases hc : inClass rs c = true
      · simp only [Regex.run, hc, if_true] at h
        exact ⟨_, ⟨Nat.le_succ _, by simp [Nat.add_assoc, Nat.add_comm 1]⟩, h⟩
      · simp [Regex.run, hc] at h
  | lit a =>
    intro s k r h
    obtain ⟨pos, rest, caps⟩ := s
    cases rest with
    | nil => simp [Regex.run] at h
    | cons c cs =>
      by_cases hc : c = a
      · simp only [Regex.run, hc, if_true] at h
        exact ⟨_, ⟨Nat.le_succ _, by simp [Nat.add_assoc, Nat.add_comm 1]⟩, h⟩
      · simp [Regex.run, hc] at h
  | cat r₁ r₂ ih₁ ih₂ =>
    intro s k r h
    simp only [Regex.run] at h
    obtain ⟨t, ht, hk⟩ := ih₁ _ _ _ h
    obtain ⟨u, hu, hku⟩ := ih₂ _ _ _ hk
    exact ⟨u, advances_trans ht hu, hku⟩
  | plus r₁ ih =>
    intro s k r h
    simp only [Regex.run] at h
    obtain ⟨t, ht, hk⟩ := ih _ _ _ h
    obtain ⟨u, hu, hku⟩ := loop_forward _ ih k r _ t hk
    exact ⟨u, advances_trans ht hu, hku⟩
  | rep r₁ min max ih =>
    intro s k r h
    simp only [Regex.run] at h
    exact count_forward _ ih k r max min s h
  | cap i r₁ ih =>
    intro s k r h
    simp only [Regex.run] at h
    obtain ⟨t, ht, hk⟩ := ih _ _ _ h
    exact ⟨{ t with caps := (i, s.pos, t.pos) :: t.caps }, ⟨ht.1, ht.2⟩, hk⟩
  | bot =>
    intro s k r h
    by_cases hp : s.pos = 0
    · simp only [Regex.run, hp, if_true] at h
      exact ⟨s, advances_refl s, h⟩
    · simp [Regex.run, hp] at h
  | eot =>
    intro s k r h
    by_cases hp : s.rest.isEmpty = true
    · simp only [Regex.run, hp, if_true] at h
      exact ⟨s, advances_refl s, h⟩
    · simp [Regex.run, hp] at h

/-- A match found at `pos` starts there and ends inside the input. -/
theorem matchAt_bounds (re : Regex) (pos : Nat) (rest : List Char) (m : Match)
    (h : matchAt re pos rest = some m) :
    m.start = pos ∧ pos ≤ m.stop ∧ m.stop ≤ pos + rest.length := by
  unfold matchAt at h
  cases hr : re.run ⟨pos, rest, []⟩ some with
  | none => rw [hr] at h; cases h
  | some x =>
    rw [hr] at h
    obtain ⟨t, ht, hk⟩ := run_forward re _ _ _ hr
    have htx : t = x := by simpa using hk
    subst htx
    have hm : m = ⟨pos, t.pos, t.caps⟩ := by simpa using h.symm
    subst hm
    obtain ⟨h1, h2⟩ := ht
    simp only at h1 h2
    show pos = pos ∧ pos ≤ t.pos ∧ t.pos ≤ pos + rest.length
    exact ⟨rfl, h1, by omega⟩

/-- A match found by a search from `pos` lies between `pos` and the end of the input. -/
theorem search_bounds (re : Regex) (m : Match) :
    ∀ (rest : List Char) (pos : Nat), search re pos rest = some m →
      pos ≤ m.start ∧ m.start ≤ m.stop ∧ m.stop ≤ pos + rest.length := by
  intro rest
  induction rest with
  | nil =>
    intro pos h
    obtain ⟨h1, h2, h3⟩ := matchAt_bounds re pos [] m (by simpa [search] using h)
    exact ⟨by omega, by omega, h3⟩
  | cons c cs ih =>
    intro pos h
    simp only [search] at h
    cases hm : matchAt re pos (c :: cs) with
    | some x =>
      rw [hm] at h
      have hx : x = m := by simpa using h
      subst hx
      obtain ⟨h1, h2, h3⟩ := matchAt_bounds re pos (c :: cs) x hm
      exact ⟨by omega, by omega, h3⟩
    | none =>
      rw [hm] at h
      obtain ⟨h1, h2, h3⟩ := ih (pos + 1) h
      simp only [List.length_cons]
      exact ⟨by omega, h2, by omega⟩

/-- The loop of `replaceAll` ends before its fuel does: one more round of fuel changes
nothing once the fuel exceeds the distance to the end of the input by two. -/
theorem replaceAll_fuel (re : Regex) (src : List Char) (repl : Match → List Char) :
    ∀ (fuel searchPos lastMatchEnd : Nat) (buf : List Char),
      src.length + 2 ≤ fuel + searchPos →
      replaceAll re src repl (fuel + 1) searchPos lastMatchEnd buf =
        replaceAll re src repl fuel searchPos lastMatchEnd buf := by
  intro fuel
  induction fuel with
  | zero =>
    intro searchPos lastMatchEnd buf hf
    have : ¬ searchPos ≤ src.length := by omega
    simp [replaceAll, this]
  | succ f ih =>
    intro searchPos lastMatchEnd buf hf
    rw [replaceAll, replaceAll]
    by_cases hle : searchPos ≤ src.length
    · simp only [hle, if_true]
      cases hs : search re searchPos (src.drop searchPos) with
      | none => rfl
      | some a =>
        obtain ⟨h1, h2, h3⟩ := search_bounds re a _ _ hs
        simp only [List.length_drop] at h3
        simp only
        apply ih
        by_cases hw : searchPos < src.length
        · simp only [hw, if_true]
          split_ifs <;> omega
        · simp only [hw, if_false]
          split_ifs <;> omega
    · simp [hle]

/-- Any fuel from `length + 2` on gives the result of `ReplaceAllString`. -/
theorem replaceAll_enough_fuel (re : Regex) (src : String) (template : List TemplateItem)
    (extra : Nat) :
    ReplaceAllString re src template =
      ⟨replaceAll re src.data (expand template src.data) (src.data.length + 2 + extra) 0 0 []⟩ := by
  unfold ReplaceAllString
  induction extra with
  | zero => rfl
  | succ n ih =>
    rw [ih, ← Nat.add_assoc, replaceAll_fuel re src.data _ (src.data.length + 2 + n) 0 0 []
      (by omega)]

/-! ## `GetLimitHost` -/

theorem hostPort_data (h p : String) : (h ++ ":" ++ p).data = h.data ++ ':' :: p.data := by
  simp [String.data_append]

theorem shape_lists {h p : String} (hs : HostPortShape h p) :
    h.data ≠ [] ∧ (∀ c ∈ h.data, inClass hostClass c = true) ∧ 2 ≤ p.data.length ∧
      p.data.length ≤ 5 ∧ (∀ c ∈ p.data, inClass digitClass c = true) :=
  ⟨hs.1, fun c hc => (inClass_hostClass c).mpr (hs.2.1 c hc), hs.2.2.1, hs.2.2.2.1,
    fun c hc => (inClass_digit c).mpr (hs.2.2.2.2 c hc)⟩

/-- A value of the shape `host:port` matches the pattern. -/
theorem matchString_of_shape {h p : String} (hs : HostPortShape h p) :
    MatchString regExpHostPort (h ++ ":" ++ p) = true := by
  obtain ⟨h1, h2, h3, h4, h5⟩ := shape_lists hs
  unfold MatchString
  rw [hostPort_data, search_zero, matchAt_hostPort h.data p.data h1 h2 h3 h4 h5]
  rfl

/-- A value that matches the pattern has the shape `host:port`. -/
theorem shape_of_matchString {s : String} (hm : MatchString regExpHostPort s = true) :
    ∃ h p, HostPortShape h p ∧ s = h ++ ":" ++ p := by
  unfold MatchString at hm
  rw [search_zero] at hm
  cases hr : matchAt regExpHostPort 0 s.data with
  | none => rw [hr] at hm; cases hm
  | some m =>
    obtain ⟨h, p, hsp, h1, h2, h3, h4, h5⟩ := matchAt_hostPort_shape s.data m hr
    refine ⟨⟨h⟩, ⟨p⟩, ⟨h1, fun c hc => (inClass_hostClass c).mp (h2 c hc), h3, h4,
      fun c hc => (inClass_digit c).mp (h5 c hc)⟩, ?_⟩
    apply String.ext
    rw [hostPort_data]
    exact hsp

/-- On a value of the shape `host:port` the replacement by group 1 leaves the host. -/
theorem replaceAllString_of_shape {h p : String} (hs : HostPortShape h p) :
    ReplaceAllString regExpHostPort (h ++ ":" ++ p) [.group 1] = h := by
  obtain ⟨h1, h2, h3, h4, h5⟩ := shape_lists hs
  have hm := matchAt_hostPort h.data p.data h1 h2 h3 h4 h5
  apply String.ext
  unfold ReplaceAllString
  simp only [hostPort_data]
  have hlen : (h.data ++ ':' :: p.data).length = h.data.length + 1 + p.data.length := by
    simp only [List.length_append, List.length_cons]; omega
  have hpos : 0 < h.data.length + 1 + p.data.length := by omega
  rw [hlen]
  simp only [replaceAll, Nat.zero_le, if_true, List.drop_zero, search_zero, hm, hlen]
  have hend : search regExpHostPort (h.data.length + 1 + p.data.length)
      (List.drop (h.data.length + 1 + p.data.length) (h.data ++ ':' :: p.data)) = none :=
    search_pos _ hpos _
  simp [hpos, expand, groupText, List.lookup]
  have hend' : search regExpHostPort (h.length + 1 + p.length)
      (List.drop (h.length + 1 + p.length) (h.data ++ ':' :: p.data)) = none := hend
  rw [hend']
  have hdrop : List.drop (h.length + 1 + p.length) (h.data ++ ':' :: p.data) = [] :=
    List.drop_eq_nil_of_le (Nat.le_of_eq hlen)
  simp [hdrop]

/-! ## The loop of `processAlerts` -/

theorem named_iff (a : Alert) : Named a ↔ ∃ v, a.Labels.lookup "alertname" = some v := by
  unfold Named
  cases a.Labels.lookup "alertname" <;> simp

theorem processLoop_unnamed {KL KB DC : Type} (eng : RuleEngine KL KB DC) (kb : KB)
    (a : Alert) (rest : List Alert) (hn : ¬ Named a) :
    processLoop eng kb (a :: rest) = ([], .exited 1) := by
  unfold Named at hn
  cases hl : a.Labels.lookup "alertname" with
  | none => simp [processLoop, hl]
  | some v => simp [hl] at hn

/-- An error returned by the engine, from `dataCtx.Add` or from `engine.Execute`, becomes a
panic of `evaluateFactAgainstRules` with that error. -/
theorem evaluate_of_engineFails {KL KB DC : Type} (eng : RuleEngine KL KB DC) (kb : KB)
    (a : Alert) (err : Error) (hf : EngineFails eng kb a err) :
    evaluateFactAgainstRules eng kb a = .panicked err := by
  rcases hf with h | ⟨dataCtx, h1, h2⟩
  · simp [evaluateFactAgainstRules, h]
  · simp [evaluateFactAgainstRules, h1, h2]

/-- When the engine returns no error, `evaluateFactAgainstRules` returns. -/
theorem evaluate_of_engineSucceeds {KL KB DC : Type} (eng : RuleEngine KL KB DC) (kb : KB)
    (a : Alert) (hs : EngineSucceeds eng kb a) : Evaluates eng kb a := by
  obtain ⟨dataCtx, a₁, h1, h2⟩ := hs
  exact ⟨a₁, by simp [evaluateFactAgainstRules, h1, h2]⟩

/-- On every fact the engine either returns no error or returns one. -/
theorem engine_cases {KL KB DC : Type} (eng : RuleEngine KL KB DC) (kb : KB) (a : Alert) :
    EngineSucceeds eng kb a ∨ ∃ err, EngineFails eng kb a err := by
  cases h1 : eng.Add "Fact" a with
  | error e => exact Or.inr ⟨e, Or.inl h1⟩
  | ok dataCtx =>
    cases h2 : eng.Execute 100 dataCtx kb with
    | error e => exact Or.inr ⟨e, Or.inr ⟨dataCtx, h1, h2⟩⟩
    | ok a₁ => exact Or.inl ⟨dataCtx, a₁, h1, h2⟩

/-- Either the engine returns no error on any alert of a list, or there is a first alert on
which it returns one. -/
theorem first_failure {KL KB DC : Type} (eng : RuleEngine KL KB DC) (kb : KB)
    (l : List Alert) :
    (∀ a ∈ l, EngineSucceeds eng kb a) ∨
      ∃ pre bad post err, l = pre ++ bad :: post ∧ (∀ a ∈ pre, EngineSucceeds eng kb a) ∧
        EngineFails eng kb bad err := by
  induction l with
  | nil => exact Or.inl (by simp)
  | cons a l ih =>
    rcases engine_cases eng kb a with hs | ⟨err, hf⟩
    · rcases ih with hall | ⟨pre, bad, post, err, hl, hpre, hbad⟩
      · refine Or.inl ?_
        intro b hb
        rcases List.mem_cons.mp hb with rfl | hb
        · exact hs
        · exact hall b hb
      · refine Or.inr ⟨a :: pre, bad, post, err, by rw [hl]; rfl, ?_, hbad⟩
        intro b hb
        rcases List.mem_cons.mp hb with rfl | hb
        · exact hs
        · exact hpre b hb
    · exact Or.inr ⟨[], a, l, err, rfl, by simp, hf⟩

/-- A named alert at the head of the batch is evaluated, whatever comes of it. -/
theorem processLoop_named_nonempty {KL KB DC : Type} (eng : RuleEngine KL KB DC) (kb : KB)
    (a : Alert) (rest : List Alert) (hn : Named a) :
    ∃ more, (processLoop eng kb (a :: rest)).1 = Event.evaluated a :: more := by
  obtain ⟨v, hv⟩ := (named_iff a).mp hn
  cases he : evaluateFactAgainstRules eng kb a with
  | returned a₁ => exact ⟨(processLoop eng kb rest).1, by simp [processLoop, hv, he]⟩
  | panicked err => exact ⟨[], by simp [processLoop, hv, he]⟩
  | exited code => exact ⟨[], by simp [processLoop, hv, he]⟩

theorem processLoop_returned {KL KB DC : Type} (eng : RuleEngine KL KB DC) (kb : KB)
    (a : Alert) (rest : List Alert) (hn : Named a) (he : Evaluates eng kb a) :
    processLoop eng kb (a :: rest) =
      (Event.evaluated a :: (processLoop eng kb rest).1, (processLoop eng kb rest).2) := by
  obtain ⟨v, hv⟩ := (named_iff a).mp hn
  obtain ⟨a₁, ha⟩ := he
  simp [processLoop, hv, ha]

theorem processLoop_panicked {KL KB DC : Type} (eng : RuleEngine KL KB DC) (kb : KB)
    (a : Alert) (rest : List Alert) (err : Error) (hn : Named a)
    (he : evaluateFactAgainstRules eng kb a = .panicked err) :
    processLoop eng kb (a :: rest) = ([Event.evaluated a], .panicked err) := by
  obtain ⟨v, hv⟩ := (named_iff a).mp hn
  simp [processLoop, hv, he]

theorem processLoop_append {KL KB DC : Type} (eng : RuleEngine KL KB DC) (kb : KB)
    (pre rest : List Alert) (hn : ∀ a ∈ pre, Named a) (he : ∀ a ∈ pre, Evaluates eng kb a) :
    processLoop eng kb (pre ++ rest) =
      (pre.map Event.evaluated ++ (processLoop eng kb rest).1, (processLoop eng kb rest).2) := by
  induction pre with
  | nil => simp
  | cons a pre ih =>
    have h1 := ih (fun b hb => hn b (List.mem_cons_of_mem _ hb))
      (fun b hb => he b (List.mem_cons_of_mem _ hb))
    rw [List.cons_append, processLoop_returned eng kb a _ (hn a (List.mem_cons_self _ _))
      (he a (List.mem_cons_self _ _)), h1]
    simp

theorem namedRun_cons_named (a : Alert) (rest : List Alert) (hn : Named a) :
    namedRun (a :: rest) = a :: namedRun rest := by
  simp [namedRun, List.takeWhile, hn]

theorem namedRun_cons_unnamed (a : Alert) (rest : List Alert) (hn : ¬ Named a) :
    namedRun (a :: rest) = [] := by
  simp [namedRun, List.takeWhile, hn]

theorem namedRun_named (alerts : List Alert) : ∀ a ∈ namedRun alerts, Named a := by
  intro a ha
  have := List.mem_takeWhile_imp ha
  simpa using this

/-- A batch splits at its first alert without `alertname`. -/
theorem namedRun_split (alerts : List Alert) (hu : ∃ a ∈ alerts, ¬ Named a) :
    ∃ bad post, alerts = namedRun alerts ++ bad :: post ∧ ¬ Named bad := by
  induction alerts with
  | nil => obtain ⟨a, ha, _⟩ := hu; cases ha
  | cons a rest ih =>
    by_cases hn : Named a
    · obtain ⟨b, hb, hbn⟩ := hu
      have hbr : b ∈ rest := by
        rcases List.mem_cons.mp hb with rfl | h
        · exact absurd hn hbn
        · exact h
      obtain ⟨bad, post, hsplit, hbad⟩ := ih ⟨b, hbr, hbn⟩
      refine ⟨bad, post, ?_, hbad⟩
      rw [namedRun_cons_named a rest hn, List.cons_append, ← hsplit]
    · exact ⟨a, rest, by rw [namedRun_cons_unnamed a rest hn]; rfl, hn⟩

/-- With an alert without `alertname` in the batch the loop never returns, and what it
evaluates is an initial part of the alerts before that alert. -/
theorem processLoop_unnamed_inv {KL KB DC : Type} (eng : RuleEngine KL KB DC) (kb : KB)
    (alerts : List Alert) (hu : ∃ a ∈ alerts, ¬ Named a) :
    (processLoop eng kb alerts).2 ≠ .returned () ∧
      (processLoop eng kb alerts).1 <+: (namedRun alerts).map Event.evaluated := by
  induction alerts with
  | nil => obtain ⟨a, ha, _⟩ := hu; cases ha
  | cons a rest ih =>
    by_cases hn : Named a
    · obtain ⟨b, hb, hbn⟩ := hu
      have hbr : b ∈ rest := by
        rcases List.mem_cons.mp hb with rfl | h
        · exact absurd hn hbn
        · exact h
      obtain ⟨ih1, ih2⟩ := ih ⟨b, hbr, hbn⟩
      obtain ⟨v, hv⟩ := (named_iff a).mp hn
      rw [namedRun_cons_named a rest hn]
      cases he : evaluateFactAgainstRules eng kb a with
      | returned a₁ =>
        rw [processLoop_returned eng kb a rest hn ⟨a₁, he⟩]
        refine ⟨ih1, ?_⟩
        simpa [List.map_cons] using (List.prefix_cons_inj (Event.evaluated a)).mpr ih2
      | panicked err =>
        rw [processLoop_panicked eng kb a rest err hn he]
        refine ⟨by simp, ?_⟩
        simp [List.map_cons, List.prefix_iff_eq_append]
      | exited code =>
        simp only [processLoop, hv, he]
        refine ⟨by simp, ?_⟩
        simp [List.map_cons, List.prefix_iff_eq_append]
    · rw [processLoop_unnamed eng kb a rest hn]
      exact ⟨by simp, List.nil_prefix⟩

theorem processAlerts_of_decoded {KL KB DC : Type} (scan : Bytes → Except Error JSON)
    (eng : RuleEngine KL KB DC) (kb : KB) (body : Bytes) (amp : AlertManagerPost)
    (hd : Unmarshal scan body = .ok amp) :
    processAlerts scan eng kb body = processLoop eng kb amp.Alerts := by
  simp [processAlerts, hd]

theorem processAlerts_of_error {KL KB DC : Type} (scan : Bytes → Except Error JSON)
    (eng : RuleEngine KL KB DC) (kb : KB) (body : Bytes) (e : Error)
    (hd : Unmarshal scan body = .error e) :
    processAlerts scan eng kb body = ([], .exited 1) := by
  simp [processAlerts, hd]

/-! ## The handler and the server -/

theorem handleWebhook_of_body {R KL KB DC : Type} (gz : GzipLib R)
    (scan : Bytes → Except Error JSON) (eng : RuleEngine KL KB DC) (kb : KB) (r : Request)
    (ev : List Event) (body : Bytes) (hr : readBodyBytes gz r = (ev, .ok body)) :
    handleWebhook gz scan eng kb r =
      (ev ++ (processAlerts scan eng kb body).1, (processAlerts scan eng kb body).2,
        ⟨none, []⟩) := by
  simp [handleWebhook, hr]

theorem handleWebhook_of_error {R KL KB DC : Type} (gz : GzipLib R)
    (scan : Bytes → Except Error JSON) (eng : RuleEngine KL KB DC) (kb : KB) (r : Request)
    (ev : List Event) (e : Error) (hr : readBodyBytes gz r = (ev, .error e)) :
    handleWebhook gz scan eng kb r = (ev, .returned (), ⟨none, []⟩) := by
  simp [handleWebhook, hr]

theorem readBodyBytes_gzip {R : Type} (gz : GzipLib R) (r : Request) (b : Bytes)
    (hb : r.Body = .ok b) (hh : DeclaresGzip r) :
    readBodyBytes gz r =
      match gz.NewReader b with
      | .error gzErr => ([Event.gzipOpened b], .error gzErr)
      | .ok contents =>
        match gz.ReadAll contents with
        | .error err2 => ([Event.gzipOpened b], .error err2)
        | .ok bb => ([Event.gzipOpened b], .ok bb) := by
  obtain ⟨more, hm⟩ := hh
  simp [readBodyBytes, hb, hm]

/-! ## The claims -/

/-- C1: for every fact whose label `instance` is `h ++ ":" ++ p`, with `h` a non-empty string
over `[A-Za-z0-9./_-]` and `p` a string of 2 to 5 decimal digits, `GetLimitHost` returns
exactly `h`. -/
theorem GetLimitHost_host_port (Fact : Alert) (h p : String) (hs : HostPortShape h p)
    (hl : Fact.Labels.lookup "instance" = some (h ++ ":" ++ p)) :
    GetLimitHost Fact = h := by
  unfold GetLimitHost
  rw [hl]
  simp only [matchString_of_shape hs, if_true]
  exact replaceAllString_of_shape hs

theorem GetLimitHost_host_port_witness :
    HostPortShape "db01" "9100" ∧ GetLimitHost alertHighCPU = "db01" :=
  ⟨by decide, GetLimitHost_host_port alertHighCPU "db01" "9100" (by decide) (by decide)⟩

/-- C2: `GetLimitHost` is a total function, and it returns the empty string for every fact
whose label `instance` is absent, or present with a value that is not `h ++ ":" ++ p` for any
non-empty `h` over `[A-Za-z0-9./_-]` and any `p` of 2 to 5 decimal digits. -/
theorem GetLimitHost_other_shape (Fact : Alert)
    (hn : Fact.Labels.lookup "instance" = none ∨
      ∃ inst, Fact.Labels.lookup "instance" = some inst ∧
        ∀ h p, HostPortShape h p → inst ≠ h ++ ":" ++ p) :
    GetLimitHost Fact = "" := by
  unfold GetLimitHost
  rcases hn with hl | ⟨inst, hl, hno⟩
  · rw [hl]
  · rw [hl]
    by_cases hm : MatchString regExpHostPort inst = true
    · obtain ⟨h, p, hs, rfl⟩ := shape_of_matchString hm
      exact absurd rfl (hno h p hs)
    · simp [hm]

theorem not_shape_of_not_match {s : String} (hm : MatchString regExpHostPort s = false) :
    ∀ h p, HostPortShape h p → s ≠ h ++ ":" ++ p := by
  intro h p hs heq
  rw [heq, matchString_of_shape hs] at hm
  cases hm

theorem GetLimitHost_other_shape_witness :
    GetLimitHost (factWith [("alertname", "HighCPU")]) = "" ∧
    GetLimitHost (factWith [("instance", "db01:9")]) = "" ∧
    GetLimitHost (factWith [("instance", "db01:123456")]) = "" ∧
    GetLimitHost (factWith [("instance", "db01")]) = "" ∧
    GetLimitHost (factWith [("instance", "fe80::1:9100")]) = "" ∧
    GetLimitHost (factWith [("instance", "db 01:9100")]) = "" ∧
    GetLimitHost (factWith [("instance", "db01:9100/metrics")]) = "" :=
  ⟨GetLimitHost_other_shape _ (Or.inl (by decide)),
   GetLimitHost_other_shape _ (Or.inr ⟨_, rfl, not_shape_of_not_match (by decide)⟩),
   GetLimitHost_other_shape _ (Or.inr ⟨_, rfl, not_shape_of_not_match (by decide)⟩),
   GetLimitHost_other_shape _ (Or.inr ⟨_, rfl, not_shape_of_not_match (by decide)⟩),
   GetLimitHost_other_shape _ (Or.inr ⟨_, rfl, not_shape_of_not_match (by decide)⟩),
   GetLimitHost_other_shape _ (Or.inr ⟨_, rfl, not_shape_of_not_match (by decide)⟩),
   GetLimitHost_other_shape _ (Or.inr ⟨_, rfl, not_shape_of_not_match (by decide)⟩)⟩

/-- C3, as the claim states it, fails on the batch `bodyMixed`: its second alert has no
`alertname`, and `processAlerts` has evaluated the first alert when it ends the process. -/
theorem processAlerts_evaluates_before_unnamed :
    Unmarshal scanExamples bodyMixed =
      .ok { AlertManagerPost.zero with Alerts := [alertHighCPU, alertUnnamed] } ∧
    (∃ a ∈ [alertHighCPU, alertUnnamed], ¬ Named a) ∧
    processAlerts scanExamples idleEngine () bodyMixed =
      ([Event.evaluated alertHighCPU], .exited 1) ∧
    (processAlerts scanExamples idleEngine () bodyMixed).1 ≠ [] :=
  ⟨by rfl, by decide, by decide, by decide⟩

/-- C3, amended: for every decoded batch in which at least one alert has no `alertname`,
`processAlerts` does not return normally, and the alerts it evaluates are, in order, an
initial part of the alerts that precede the first alert without `alertname`: no alert at or
after that one is evaluated. Which part is settled by the engine: when it returns an error on
none of the preceding alerts, all of them are evaluated and the process is ended with exit
status 1; otherwise the alerts up to and including the first one on which it returns an error
are evaluated and `processAlerts` panics with that error. Nothing is evaluated exactly when
the first alert of the batch is the one without `alertname`. -/
theorem processAlerts_unnamed_alert {KL KB DC : Type} (scan : Bytes → Except Error JSON)
    (eng : RuleEngine KL KB DC) (kb : KB) (body : Bytes) (amp : AlertManagerPost)
    (hd : Unmarshal scan body = .ok amp) (hu : ∃ a ∈ amp.Alerts, ¬ Named a) :
    (processAlerts scan eng kb body).2 ≠ .returned () ∧
    (processAlerts scan eng kb body).1 <+: (namedRun amp.Alerts).map Event.evaluated ∧
    ((processAlerts scan eng kb body).1 = [] ↔ ∃ a rest, amp.Alerts = a :: rest ∧ ¬ Named a) ∧
    ((∀ a ∈ namedRun amp.Alerts, EngineSucceeds eng kb a) →
      processAlerts scan eng kb body = ((namedRun amp.Alerts).map Event.evaluated, .exited 1)) ∧
    (∀ pre bad post err, namedRun amp.Alerts = pre ++ bad :: post →
      (∀ a ∈ pre, EngineSucceeds eng kb a) → EngineFails eng kb bad err →
      processAlerts scan eng kb body =
        ((pre ++ [bad]).map Event.evaluated, .panicked err)) ∧
    (processAlerts scan eng kb body = ((namedRun amp.Alerts).map Event.evaluated, .exited 1) ∨
      ∃ pre bad post err, namedRun amp.Alerts = pre ++ bad :: post ∧
        processAlerts scan eng kb body =
          ((pre ++ [bad]).map Event.evaluated, .panicked err)) ∧
    (∀ a rest, amp.Alerts = a :: rest → ¬ Named a →
      processAlerts scan eng kb body = ([], .exited 1)) := by
  rw [processAlerts_of_decoded scan eng kb body amp hd]
  obtain ⟨h1, h2⟩ := processLoop_unnamed_inv eng kb amp.Alerts hu
  obtain ⟨unnamed, tail, hsplit, hunnamed⟩ := namedRun_split amp.Alerts hu
  have hall : (∀ a ∈ namedRun amp.Alerts, EngineSucceeds eng kb a) →
      processLoop eng kb amp.Alerts =
        ((namedRun amp.Alerts).map Event.evaluated, .exited 1) := by
    intro he
    have := processLoop_append eng kb (namedRun amp.Alerts) (unnamed :: tail)
      (namedRun_named amp.Alerts)
      (fun a ha => evaluate_of_engineSucceeds eng kb a (he a ha))
    rw [← hsplit, processLoop_unnamed eng kb unnamed tail hunnamed] at this
    simpa using this
  have hfail : ∀ pre bad post err, namedRun amp.Alerts = pre ++ bad :: post →
      (∀ a ∈ pre, EngineSucceeds eng kb a) → EngineFails eng kb bad err →
      processLoop eng kb amp.Alerts =
        ((pre ++ [bad]).map Event.evaluated, .panicked err) := by
    intro pre bad post err hrun hpre hbad
    have hnamed := namedRun_named amp.Alerts
    rw [hrun] at hnamed
    have hal : amp.Alerts = pre ++ bad :: (post ++ unnamed :: tail) := by
      rw [hsplit, hrun]
      simp
    rw [hal, processLoop_append eng kb pre _
      (fun a ha => hnamed a (by simp [ha]))
      (fun a ha => evaluate_of_engineSucceeds eng kb a (hpre a ha)),
      processLoop_panicked eng kb bad _ err (hnamed bad (by simp))
        (evaluate_of_engineFails eng kb bad err hbad)]
    simp
  refine ⟨h1, h2, ?_, hall, hfail, ?_, ?_⟩
  · cases hal : amp.Alerts with
    | nil =>
      obtain ⟨a, ha, _⟩ := hu
      rw [hal] at ha
      cases ha
    | cons a rest =>
      by_cases hn : Named a
      · obtain ⟨more, hmore⟩ := processLoop_named_nonempty eng kb a rest hn
        constructor
        · intro hnil
          rw [hmore] at hnil
          cases hnil
        · rintro ⟨a', rest', heq, hn'⟩
          cases heq
          exact absurd hn hn'
      · constructor
        · intro _
          exact ⟨a, rest, rfl, hn⟩
        · intro _
          rw [processLoop_unnamed eng kb a rest hn]
  · rcases first_failure eng kb (namedRun amp.Alerts) with he | ⟨pre, bad, post, err, hrun, hpre, hbad⟩
    · exact Or.inl (hall he)
    · exact Or.inr ⟨pre, bad, post, err, hrun, hfail pre bad post err hrun hpre hbad⟩
  · intro a rest hs hn
    rw [hs]
    exact processLoop_unnamed eng kb a rest hn

theorem processAlerts_unnamed_alert_witness :
    (∃ a ∈ [alertHighCPU, alertUnnamed], ¬ Named a) ∧
    (processAlerts scanExamples idleEngine () bodyMixed).2 ≠ .returned () ∧
    processAlerts scanExamples idleEngine () bodyMixed =
      ((namedRun [alertHighCPU, alertUnnamed]).map Event.evaluated, .exited 1) ∧
    (∃ a ∈ [alertBad, alertUnnamed], ¬ Named a) ∧
    processAlerts scanExamples failingEngine () bodyBadUnnamed =
      ([Event.evaluated alertBad], .panicked "rule execution failed") :=
  ⟨by decide,
    (processAlerts_unnamed_alert scanExamples idleEngine () bodyMixed
      { AlertManagerPost.zero with Alerts := [alertHighCPU, alertUnnamed] }
      (by rfl) (by decide)).1,
    (processAlerts_unnamed_alert scanExamples idleEngine () bodyMixed
      { AlertManagerPost.zero with Alerts := [alertHighCPU, alertUnnamed] }
      (by rfl) (by decide)).2.2.2.1
      (fun a _ => ⟨a, a, rfl, rfl⟩),
    by decide,
    (processAlerts_unnamed_alert scanExamples failingEngine () bodyBadUnnamed
      { AlertManagerPost.zero with Alerts := [alertBad, alertUnnamed] }
      (by rfl) (by decide)).2.2.2.2.1 [] alertBad [] "rule execution failed" (by decide)
      (by simp) (Or.inr ⟨alertBad, rfl, rfl⟩)⟩

/-- C4, as the claim states it, fails on the batch `bodyBadFirst`: both alerts carry
`alertname`, the engine fails on the first, the second is never evaluated, and the handler
ends in a panic, so that the client gets no response. -/
theorem processAlerts_stops_at_engine_failure :
    Unmarshal scanExamples bodyBadFirst =
      .ok { AlertManagerPost.zero with Alerts := [alertBad, alertHighCPU] } ∧
    (∀ a ∈ [alertBad, alertHighCPU], Named a) ∧
    evaluateFactAgainstRules failingEngine () alertBad = .panicked "rule execution failed" ∧
    processAlerts scanExamples failingEngine () bodyBadFirst =
      ([Event.evaluated alertBad], .panicked "rule execution failed") ∧
    serveRequest framedGzip scanExamples failingEngine () (plainRequest bodyBadFirst) =
      ([Event.evaluated alertBad], .aborted, .serving) ∧
    Event.evaluated alertHighCPU ∉
      (processAlerts scanExamples failingEngine () bodyBadFirst).1 :=
  ⟨by rfl, by decide, by rfl, by decide, by decide, by decide⟩

/-- C4, amended: for every batch in which all alerts carry `alertname`, the first alert on
which the engine returns an error (from `dataCtx.Add` or from `engine.Execute`) ends the
batch: the alerts before it and that alert are evaluated, in order, no alert after it is
evaluated, and `processAlerts` ends in a panic with that error. The request fails: the server
recovers the panic and drops the connection without a response, and the process keeps
serving. -/
theorem processAlerts_engine_failure {KL KB DC : Type} (scan : Bytes → Except Error JSON)
    (eng : RuleEngine KL KB DC) (kb : KB) (body : Bytes) (amp : AlertManagerPost)
    (pre post : List Alert) (bad : Alert) (err : Error)
    (hd : Unmarshal scan body = .ok amp) (hs : amp.Alerts = pre ++ bad :: post)
    (hn : ∀ a ∈ amp.Alerts, Named a) (hpre : ∀ a ∈ pre, EngineSucceeds eng kb a)
    (hbad : EngineFails eng kb bad err) :
    evaluateFactAgainstRules eng kb bad = .panicked err ∧
    processAlerts scan eng kb body = ((pre ++ [bad]).map Event.evaluated, .panicked err) ∧
    (∀ a ∈ post, Event.evaluated a ∈ (processAlerts scan eng kb body).1 → a ∈ pre ++ [bad]) ∧
    ∀ (R : Type) (gz : GzipLib R) (r : Request) (ev : List Event),
      readBodyBytes gz r = (ev, .ok body) →
      serveRequest gz scan eng kb r =
        (ev ++ (pre ++ [bad]).map Event.evaluated, .aborted, .serving) := by
  have hpanic := evaluate_of_engineFails eng kb bad err hbad
  have hp : processAlerts scan eng kb body =
      ((pre ++ [bad]).map Event.evaluated, .panicked err) := by
    rw [processAlerts_of_decoded scan eng kb body amp hd, hs]
    have hnpre : ∀ a ∈ pre, Named a := fun a ha => hn a (by rw [hs]; simp [ha])
    have hnbad : Named bad := hn bad (by rw [hs]; simp)
    rw [processLoop_append eng kb pre (bad :: post) hnpre
        (fun a ha => evaluate_of_engineSucceeds eng kb a (hpre a ha)),
      processLoop_panicked eng kb bad post err hnbad hpanic]
    simp
  refine ⟨hpanic, hp, ?_, ?_⟩
  · intro a _ hmem
    rw [hp] at hmem
    obtain ⟨b, hb, hbe⟩ := List.mem_map.mp hmem
    cases hbe
    exact hb
  · intro R gz r ev hr
    simp [serveRequest, handleWebhook_of_body gz scan eng kb r ev body hr, hp]

theorem processAlerts_engine_failure_witness :
    EngineFails failingEngine () alertBad "rule execution failed" ∧
    processAlerts scanExamples failingEngine () bodyBadFirst =
      ([Event.evaluated alertBad], .panicked "rule execution failed") ∧
    serveRequest framedGzip scanExamples failingEngine () (plainRequest bodyBadFirst) =
      ([Event.evaluated alertBad], .aborted, .serving) :=
  ⟨Or.inr ⟨alertBad, rfl, rfl⟩,
    (processAlerts_engine_failure scanExamples failingEngine () bodyBadFirst
      { AlertManagerPost.zero with Alerts := [alertBad, alertHighCPU] } [] [alertHighCPU]
      alertBad "rule execution failed" (by rfl) rfl (by decide) (by simp)
      (Or.inr ⟨alertBad, rfl, rfl⟩)).2.1,
    (processAlerts_engine_failure scanExamples failingEngine () bodyBadFirst
      { AlertManagerPost.zero with Alerts := [alertBad, alertHighCPU] } [] [alertHighCPU]
      alertBad "rule execution failed" (by rfl) rfl (by decide) (by simp)
      (Or.inr ⟨alertBad, rfl, rfl⟩)).2.2.2
      Bytes framedGzip (plainRequest bodyBadFirst) [] (by rfl)⟩

/-- C5, as the claim states it, fails on a request whose body is not JSON and on a request
whose batch holds an alert without `alertname`: in both cases the process is terminated
with exit status 1 and no response is sent. -/
theorem serveRequest_parse_error_terminates :
    Unmarshal scanExamples bodyGarbage =
      .error "invalid character looking for beginning of value" ∧
    serveRequest framedGzip scanExamples idleEngine () (plainRequest bodyGarbage) =
      ([], .aborted, .terminated 1) ∧
    serveRequest framedGzip scanExamples idleEngine () (plainRequest bodyMixed) =
      ([Event.evaluated alertHighCPU], .aborted, .terminated 1) ∧
    (serveRequest framedGzip scanExamples idleEngine () (plainRequest bodyGarbage)).2.2 ≠
      .serving :=
  ⟨by rfl, by decide, by decide, by decide⟩

/-- C5, amended: a parse error ends the process. For every request whose body is read and is
not well-formed JSON for the batch schema, or decodes to a batch that holds an alert without
`alertname` while the engine fails on none of the alerts before the first such alert,
`processAlerts` ends in `log.Fatal`: no response is sent and the process terminates with exit
status 1, so that no later request is handled. -/
theorem serveRequest_parse_error {R KL KB DC : Type} (gz : GzipLib R)
    (scan : Bytes → Except Error JSON) (eng : RuleEngine KL KB DC) (kb : KB) (r : Request)
    (ev : List Event) (body : Bytes) (hr : readBodyBytes gz r = (ev, .ok body))
    (hp : (∃ e, Unmarshal scan body = .error e) ∨
      ∃ amp, Unmarshal scan body = .ok amp ∧ (∃ a ∈ amp.Alerts, ¬ Named a) ∧
        ∀ a ∈ namedRun amp.Alerts, Evaluates eng kb a) :
    (processAlerts scan eng kb body).2 = .exited 1 ∧
    (serveRequest gz scan eng kb r).2 = (.aborted, .terminated 1) := by
  have hx : (processAlerts scan eng kb body).2 = .exited 1 := by
    rcases hp with ⟨e, he⟩ | ⟨amp, hd, hu, hev⟩
    · rw [processAlerts_of_error scan eng kb body e he]
    · rw [processAlerts_of_decoded scan eng kb body amp hd]
      obtain ⟨bad, post, hsplit, hbad⟩ := namedRun_split amp.Alerts hu
      have := processLoop_append eng kb (namedRun amp.Alerts) (bad :: post)
        (namedRun_named amp.Alerts) hev
      rw [← hsplit, processLoop_unnamed eng kb bad post hbad] at this
      rw [this]
  refine ⟨hx, ?_⟩
  simp [serveRequest, handleWebhook_of_body gz scan eng kb r ev body hr, hx]

theorem serveRequest_parse_error_witness :
    (processAlerts scanExamples idleEngine () bodyGarbage).2 = .exited 1 ∧
    (serveRequest framedGzip scanExamples idleEngine () (plainRequest bodyGarbage)).2 =
      (.aborted, .terminated 1) :=
  serveRequest_parse_error framedGzip scanExamples idleEngine () (plainRequest bodyGarbage)
    [] bodyGarbage (by rfl) (Or.inl ⟨_, by rfl⟩)

/-- C6, as the claim states it, fails on a request that declares `Content-Encoding: gzip`
with a body that is not a gzip stream, and on one with a truncated stream: `readBodyBytes`
returns an error and no alert is evaluated, but the status of the response is 200. -/
theorem handleWebhook_decode_error_status_200 :
    DeclaresGzip (gzipRequest bodyGarbage) ∧
    (readBodyBytes framedGzip (gzipRequest bodyGarbage)).2 = .error "gzip: invalid header" ∧
    serveRequest framedGzip scanExamples idleEngine () (gzipRequest bodyGarbage) =
      ([Event.gzipOpened bodyGarbage], .status 200, .serving) ∧
    (readBodyBytes framedGzip (gzipRequest (framedGzip.compress bodyMixed).dropLast)).2 =
      .error "gzip: invalid checksum" ∧
    (serveRequest framedGzip scanExamples idleEngine ()
      (gzipRequest (framedGzip.compress bodyMixed).dropLast)).2 = (.status 200, .serving) :=
  ⟨⟨[], by rfl⟩, by rfl, by decide, by rfl, by decide⟩

/-- C6, amended: for every request that declares `Content-Encoding: gzip` and whose body is
truncated or not a valid gzip stream, `readBodyBytes` returns the error and `handleWebhook`
returns without evaluating any alert and without writing a status or a body, so that the
server answers with the default status 200. -/
theorem handleWebhook_decode_error {R KL KB DC : Type} (gz : GzipLib R)
    (scan : Bytes → Except Error JSON) (eng : RuleEngine KL KB DC) (kb : KB) (r : Request)
    (b : Bytes) (err : Error) (hb : r.Body = .ok b) (hh : DeclaresGzip r)
    (hf : GzipFails gz b err) :
    readBodyBytes gz r = ([Event.gzipOpened b], .error err) ∧
    handleWebhook gz scan eng kb r = ([Event.gzipOpened b], .returned (), ⟨none, []⟩) ∧
    serveRequest gz scan eng kb r = ([Event.gzipOpened b], .status 200, .serving) := by
  have h1 : readBodyBytes gz r = ([Event.gzipOpened b], .error err) := by
    rw [readBodyBytes_gzip gz r b hb hh]
    rcases hf with h | ⟨contents, hc, ha⟩
    · simp [h]
    · simp [hc, ha]
  have h2 := handleWebhook_of_error gz scan eng kb r _ err h1
  exact ⟨h1, h2, by simp [serveRequest, h2]⟩

theorem handleWebhook_decode_error_witness :
    GzipFails framedGzip bodyGarbage "gzip: invalid header" ∧
    readBodyBytes framedGzip (gzipRequest bodyGarbage) =
      ([Event.gzipOpened bodyGarbage], .error "gzip: invalid header") ∧
    handleWebhook framedGzip scanExamples idleEngine () (gzipRequest bodyGarbage) =
      ([Event.gzipOpened bodyGarbage], .returned (), ⟨none, []⟩) ∧
    serveRequest framedGzip scanExamples idleEngine () (gzipRequest bodyGarbage) =
      ([Event.gzipOpened bodyGarbage], .status 200, .serving) :=
  ⟨Or.inl (by rfl),
    handleWebhook_decode_error framedGzip scanExamples idleEngine () (gzipRequest bodyGarbage)
      bodyGarbage "gzip: invalid header" rfl ⟨[], by rfl⟩ (Or.inl (by rfl))⟩

/-- C7 fails on the body `bodyPreset`, whose alert object carries the keys `playbook`,
`InventoryFile` and `LIMITHOST`: the decoder stores their values in the three output fields,
the fact is evaluated with them, and an engine whose rules do nothing leaves them in place. -/
theorem processAlerts_preset_output_fields :
    decodePost docPreset = .ok { AlertManagerPost.zero with Alerts := [factPreset] } ∧
    Unmarshal scanExamples bodyPreset =
      .ok { AlertManagerPost.zero with Alerts := [factPreset] } ∧
    processAlerts scanExamples idleEngine () bodyPreset =
      ([Event.evaluated factPreset], .returned ()) ∧
    evaluateFactAgainstRules idleEngine () factPreset = .returned factPreset ∧
    factPreset.Playbook = "evil.yml" ∧ factPreset.InventoryFile = "hosts.ini" ∧
    factPreset.LimitHost = "all" :=
  ⟨by rfl, by rfl, by decide, by rfl, by rfl, by rfl, by rfl⟩

theorem framedGzip_roundtrip (b : Bytes) :
    ∃ contents, framedGzip.NewReader (framedGzip.compress b) = .ok contents ∧
      framedGzip.ReadAll contents = .ok b := by
  refine ⟨b ++ [UInt8.ofNat (b.length % 256)], rfl, ?_⟩
  simp [framedGzip, List.dropLast_concat]

/-- C8: when the gzip reader inverts the gzip writer, then for every byte sequence `b`,
`readBodyBytes` applied to a request with header `Content-Encoding: gzip` and body `gzip(b)`
returns exactly `b` and no error. -/
theorem readBodyBytes_gzip_roundtrip {R : Type} (gz : GzipLib R)
    (hgz : ∀ b, ∃ contents, gz.NewReader (gz.compress b) = .ok contents ∧
      gz.ReadAll contents = .ok b)
    (r : Request) (b : Bytes) (hb : r.Body = .ok (gz.compress b)) (hh : DeclaresGzip r) :
    (readBodyBytes gz r).2 = .ok b := by
  obtain ⟨contents, hc, ha⟩ := hgz b
  rw [readBodyBytes_gzip gz r (gz.compress b) hb hh]
  simp [hc, ha]

theorem readBodyBytes_gzip_roundtrip_witness :
    DeclaresGzip (gzipRequest (framedGzip.compress bodyMixed)) ∧
    (readBodyBytes framedGzip (gzipRequest (framedGzip.compress bodyMixed))).2 =
      .ok bodyMixed :=
  ⟨⟨[], by rfl⟩,
    readBodyBytes_gzip_roundtrip framedGzip framedGzip_roundtrip
      (gzipRequest (framedGzip.compress bodyMixed)) bodyMixed rfl ⟨[], by rfl⟩⟩

/-- C9: for every request whose body reads as `b` and which has no `Content-Encoding`
header, or whose first `Content-Encoding` value is anything other than exactly `gzip`,
`readBodyBytes` returns exactly `b` and no error, and `gzip.NewReader` is not called. -/
theorem readBodyBytes_passthrough {R : Type} (gz : GzipLib R) (r : Request) (b : Bytes)
    (hb : r.Body = .ok b)
    (hh : r.Header.lookup "Content-Encoding" = none ∨
      ∃ vs, r.Header.lookup "Content-Encoding" = some vs ∧ vs.head? ≠ some "gzip") :
    readBodyBytes gz r = ([], .ok b) := by
  rcases hh with h | ⟨vs, h, hv⟩
  · simp [readBodyBytes, hb, h]
  · simp [readBodyBytes, hb, h, hv]

theorem readBodyBytes_passthrough_witness :
    readBodyBytes framedGzip (plainRequest bodyMixed) = ([], .ok bodyMixed) ∧
    readBodyBytes framedGzip
      { Header := [("Content-Encoding", ["GZIP", "gzip"])], Body := .ok bodyMixed } =
        ([], .ok bodyMixed) :=
  ⟨readBodyBytes_passthrough framedGzip (plainRequest bodyMixed) bodyMixed rfl
      (Or.inl (by decide)),
    readBodyBytes_passthrough framedGzip _ bodyMixed rfl
      (Or.inr ⟨["GZIP", "gzip"], by decide, by decide⟩)⟩

/-- The part of C10 that holds: when the rule source does not compile, or the knowledge base
cannot be instantiated, `getRules` panics and `main` does not start the listener. -/
theorem getRules_compile_error {KL KB DC : Type} (eng : RuleEngine KL KB DC)
    (readFile : String → Bytes × Option Error) (yamlUnmarshal : Bytes → Except Error Config)
    (err : Error)
    (hc : eng.BuildRuleFromResource eng.NewKnowledgeLibrary "TutorialRules" "0.0.1"
        (readFile "rules.grl").1 = .error err ∨
      ∃ kl, eng.BuildRuleFromResource eng.NewKnowledgeLibrary "TutorialRules" "0.0.1"
          (readFile "rules.grl").1 = .ok kl ∧
        eng.NewKnowledgeBaseInstance kl "TutorialRules" "0.0.1" = .error err) :
    getRules eng readFile = .panicked err ∧
      ∀ l, main eng yamlUnmarshal readFile ≠ .returned l := by
  have hg : getRules eng readFile = .panicked err := by
    rcases hc with h | ⟨kl, h1, h2⟩
    · simp [getRules, h]
    · simp [getRules, h1, h2]
  refine ⟨hg, ?_⟩
  intro l
  cases hconf : readConf readFile yamlUnmarshal "config.yml" with
  | error e => simp [main, hconf]
  | ok c => simp [main, hconf, hg]

/-- C10 fails when the rule file cannot be read and the engine compiles the empty source:
`getRules` only logs the read error, compiles the empty source and returns the knowledge
base, and `main` starts the listener. -/
theorem getRules_unreadable_rule_file {KL KB DC : Type} (eng : RuleEngine KL KB DC)
    (readFile : String → Bytes × Option Error) (yamlUnmarshal : Bytes → Except Error Config)
    (config_obj : Config) (err : Error) (kl : KL) (kb : KB)
    (hconf : readConf readFile yamlUnmarshal "config.yml" = .ok config_obj)
    (hread : readFile "rules.grl" = ([], some err))
    (hbuild : eng.BuildRuleFromResource eng.NewKnowledgeLibrary "TutorialRules" "0.0.1" [] =
      .ok kl)
    (hinst : eng.NewKnowledgeBaseInstance kl "TutorialRules" "0.0.1" = .ok kb) :
    getRules eng readFile = .returned kb ∧
    main eng yamlUnmarshal readFile =
      .returned { httpAddr := listenAddr ":5000" config_obj.Sources, knowledgeBase := kb } := by
  have hg : getRules eng readFile = .returned kb := by
    simp [getRules, hread, hbuild, hinst]
  exact ⟨hg, by simp [main, hconf, hg]⟩

theorem getRules_unreadable_rule_file_witness :
    onlyConfig "rules.grl" = ([], some "open rules.grl: no such file or directory") ∧
    getRules idleEngine onlyConfig = .returned () ∧
    main idleEngine (yamlTable [(configText, configExample)]) onlyConfig =
      .returned { httpAddr := listenAddr ":5000" configExample.Sources, knowledgeBase := () } :=
  ⟨by rfl, getRules_unreadable_rule_file idleEngine onlyConfig
      (yamlTable [(configText, configExample)]) configExample
      "open rules.grl: no such file or directory" [("TutorialRules", "0.0.1")] ()
      (by rfl) (by rfl) (by rfl) (by rfl)⟩

end Grulebook
